import Mathlib

/-!
Verification of the agent-builder execution engine: the schema validator
(src/utils/openApiSpec.ts), the tool executor (Agent.callTool / callTools in
src/implementations/agent.ts) and the step orchestrator (Orchestrator in
src/implementations/agent.ts).  The TypeScript code is shallowly embedded:
JS values are the inductive `Value`, async functions become pure functions,
thrown errors become `Except String`, and the external LLM gateway and tool
execute functions are oracle parameters.  Tool-execution and gateway calls
are additionally recorded in an event trace so that claims about "the tool
is invoked / the gateway is never invoked" are expressible.
-/

namespace AgentBuilder

/-- JSON-like runtime values (the JS values flowing through the validator). -/
inductive Value : Type where
  | str : String → Value
  | num : Int → Value
  | bool : Bool → Value
  | arr : List Value → Value
  | obj : List (String × Value) → Value
  | null : Value

/-- Enum literals: the source types declare `enum?: (string | number)[]`. -/
inductive EnumLit : Type where
  | str : String → EnumLit
  | num : Int → EnumLit
deriving DecidableEq

/-- OpenAPISchemaProperty from src/types/openAPISpec.types.ts (the fields the
validator reads: type, enum, bounds, nested properties/required, items). -/
inductive SchemaProp : Type where
  | mk : (type : String) → (enumVals : Option (List EnumLit)) →
      (minimum : Option Int) → (maximum : Option Int) →
      (minLength : Option Nat) → (maxLength : Option Nat) →
      (properties : Option (List (String × SchemaProp))) →
      (required : Option (List String)) →
      (items : Option SchemaProp) →
      (description : Option String) → SchemaProp

def SchemaProp.type : SchemaProp → String
  | .mk t _ _ _ _ _ _ _ _ _ => t

def SchemaProp.enumVals : SchemaProp → Option (List EnumLit)
  | .mk _ e _ _ _ _ _ _ _ _ => e

def SchemaProp.minimum : SchemaProp → Option Int
  | .mk _ _ mi _ _ _ _ _ _ _ => mi

def SchemaProp.maximum : SchemaProp → Option Int
  | .mk _ _ _ ma _ _ _ _ _ _ => ma

def SchemaProp.minLength : SchemaProp → Option Nat
  | .mk _ _ _ _ ml _ _ _ _ _ => ml

def SchemaProp.maxLength : SchemaProp → Option Nat
  | .mk _ _ _ _ _ ml _ _ _ _ => ml

def SchemaProp.properties : SchemaProp → Option (List (String × SchemaProp))
  | .mk _ _ _ _ _ _ ps _ _ _ => ps

def SchemaProp.required : SchemaProp → Option (List String)
  | .mk _ _ _ _ _ _ _ r _ _ => r

def SchemaProp.items : SchemaProp → Option SchemaProp
  | .mk _ _ _ _ _ _ _ _ it _ => it

def SchemaProp.description : SchemaProp → Option String
  | .mk _ _ _ _ _ _ _ _ _ d => d

/-- A property that only carries a type, `\x7b type: t \x7d` in the source. -/
def SchemaProp.ofType (t : String) : SchemaProp :=
  .mk t none none none none none none none none none

/-- OpenAPISchema: `\x7b type: "object", properties, required? \x7d`. -/
structure OpenAPISchema : Type where
  properties : List (String × SchemaProp)
  required : Option (List String)

/-- Entry of a simplified-format schema record: either a plain string naming a
type, a full property object (any object with a `type` field), or some other
value (defaulted to type "string" by the source). -/
inductive SimpleFieldSpec : Type where
  | typeName (t : String)
  | propSpec (p : SchemaProp)
  | otherVal

/-- ParametersSchema: OpenAPI format or simplified `Record<string, ...>`. -/
inductive ParametersSchema : Type where
  | openapi (schema : OpenAPISchema)
  | simplified (fields : List (String × SimpleFieldSpec))

/-- normalizeToOpenAPISchema from src/utils/openApiSpec.ts. -/
def normalizeToOpenAPISchema : ParametersSchema → OpenAPISchema
  | .openapi s => s
  | .simplified fields =>
    { properties := fields.map fun kv =>
        (kv.1, match kv.2 with
          | .propSpec p => p
          | .typeName t => SchemaProp.ofType t
          | .otherVal => SchemaProp.ofType "string")
      required := some (fields.map Prod.fst) }

/-- JS property access `data[k]` on a record (JS objects have unique keys). -/
def lookupVal (data : List (String × Value)) (k : String) : Option Value :=
  (data.find? (fun kv => kv.1 = k)).map Prod.snd

/-- JS `typeof` for our values (arrays and null have typeof "object"). -/
def jsTypeof : Value → String
  | .str _ => "string"
  | .num _ => "number"
  | .bool _ => "boolean"
  | .arr _ => "object"
  | .obj _ => "object"
  | .null => "object"

/-- The `actualType` computed in validateProperty for error messages:
array-aware, with an explicit "null" case. -/
def actualTypeStr : Value → String
  | .arr _ => "array"
  | .null => "null"
  | v => jsTypeof v

/-- JS `enum.includes(value)`: SameValueZero comparison of a runtime value
with string/number enum literals (objects are never equal by reference). -/
def enumIncludes (l : List EnumLit) (v : Value) : Bool :=
  l.any fun e =>
    match e, v with
    | .str s, .str t => s = t
    | .num n, .num m => n = m
    | _, _ => false

/-- JS `enum.join(", ")` (numbers stringified). -/
def enumJoin (l : List EnumLit) : String :=
  String.intercalate ", " (l.map fun e =>
    match e with
    | .str s => s
    | .num n => toString n)

def Value.isArr : Value → Bool
  | .arr _ => true
  | _ => false

def Value.isObj : Value → Bool
  | .obj _ => true
  | _ => false

/-- String length constraints of validateProperty (source lines 144-158). -/
def stringBoundsError (minL maxL : Option Nat) (fieldPath : String) (v : Value) :
    Option String :=
  match v with
  | .str s =>
    match minL with
    | some m =>
      if s.length < m then
        some ("Field '" ++ fieldPath ++ "' must be at least " ++
          toString m ++ " characters")
      else
        match maxL with
        | some mx =>
          if s.length > mx then
            some ("Field '" ++ fieldPath ++ "' must be at most " ++
              toString mx ++ " characters")
          else none
        | none => none
    | none =>
      match maxL with
      | some mx =>
        if s.length > mx then
          some ("Field '" ++ fieldPath ++ "' must be at most " ++
            toString mx ++ " characters")
        else none
      | none => none
  | _ => none

/-- Number constraints of validateProperty (source lines 160-177). -/
def numBoundsError (mi ma : Option Int) (fieldPath : String) (v : Value) :
    Option String :=
  match v with
  | .num n =>
    match mi with
    | some m =>
      if n < m then
        some ("Field '" ++ fieldPath ++ "' must be at least " ++ toString m)
      else
        match ma with
        | some mx =>
          if n > mx then
            some ("Field '" ++ fieldPath ++ "' must be at most " ++ toString mx)
          else none
        | none => none
    | none =>
      match ma with
      | some mx =>
        if n > mx then
          some ("Field '" ++ fieldPath ++ "' must be at most " ++ toString mx)
        else none
      | none => none
  | _ => none

/-- The absent-or-null test used by the required-fields loop of
validateAgainstOpenAPISchema (`!(f in data) || data[f] === undefined ||
data[f] === null`). -/
def missingRequired (data : List (String × Value)) (f : String) : Bool :=
  match lookupVal data f with
  | none => true
  | some .null => true
  | some _ => false

/-- The skip test of validateAgainstOpenAPISchema's property loop: a field is
skipped when it is not required and its value is absent or null. -/
def skipsField (data : List (String × Value)) (required : List String)
    (f : String) : Bool :=
  !(required.contains f) && missingRequired data f

theorem sizeOf_lookupVal_le (data : List (String × Value)) (k : String) :
    sizeOf (lookupVal data k) ≤ sizeOf data := by
  induction data with
  | nil => simp [lookupVal]
  | cons kv rest ih =>
    obtain ⟨f, v⟩ := kv
    rw [lookupVal]
    by_cases h : f = k
    · rw [List.find?_cons_of_pos _ (by simp [h])]
      simp only [Option.map_some', List.cons.sizeOf_spec, Prod.mk.sizeOf_spec,
        Option.some.sizeOf_spec]
      omega
    · rw [List.find?_cons_of_neg _ (by simp [h])]
      have h2 : sizeOf (lookupVal rest k) ≤ sizeOf rest := ih
      rw [lookupVal] at h2
      simp only [List.cons.sizeOf_spec, Prod.mk.sizeOf_spec]
      omega

theorem sizeOf_list_pos {α} [SizeOf α] (l : List α) : 0 < sizeOf l := by
  cases l <;> simp_arith

/-- The non-recursive prefix of validateProperty (source lines 84-177): the
primitive type checks, the enum membership check, and the string/number
bounds checks, in source order; returns the first error, if any. -/
def validatePropertyChecks (v : Value) (p : SchemaProp) (fieldPath : String) :
    Option String :=
  match p with
  | .mk ty en mi ma minL maxL _props _req _items _dsc =>
    let actualType := actualTypeStr v
    if ty = "integer" ∧ jsTypeof v ≠ "number" then
      some ("Field '" ++ fieldPath ++ "' must be an integer, got " ++ actualType)
    else if ty = "number" ∧ jsTypeof v ≠ "number" then
      some ("Field '" ++ fieldPath ++ "' must be a number, got " ++ actualType)
    else if ty = "string" ∧ jsTypeof v ≠ "string" then
      some ("Field '" ++ fieldPath ++ "' must be a string, got " ++ actualType)
    else if ty = "boolean" ∧ jsTypeof v ≠ "boolean" then
      some ("Field '" ++ fieldPath ++ "' must be a boolean, got " ++ actualType)
    else if ty = "array" ∧ ¬ v.isArr then
      some ("Field '" ++ fieldPath ++ "' must be an array, got " ++ actualType)
    else if ty = "object" ∧ ¬ v.isObj then
      some ("Field '" ++ fieldPath ++ "' must be an object, got " ++ actualType)
    else if (match en with | some l => !(enumIncludes l v) | none => false) then
      some ("Field '" ++ fieldPath ++ "' must be one of: " ++ enumJoin (en.getD []))
    else
      match stringBoundsError minL maxL fieldPath v with
      | some e => some e
      | none =>
        match numBoundsError mi ma fieldPath v with
        | some e => some e
        | none => none

mutual

/-- validateProperty from src/utils/openApiSpec.ts: validate one value against
one property schema.  `none` models JS undefined; success carries the
validatedValue (every successful source path sets it, so no `?? value`
fallback is needed at call sites). -/
def validateProperty (value : Option Value) (p : SchemaProp) (fieldPath : String) :
    Except String Value :=
  match value with
  | none => .error ("Missing required field: " ++ fieldPath)
  | some .null => .error ("Missing required field: " ++ fieldPath)
  | some v =>
    match validatePropertyChecks v p fieldPath with
    | some e => .error e
    | none =>
      match p with
      | .mk ty _en _mi _ma _minL _maxL props req items _dsc =>
        match props, items, v with
        | some nprops, _, .obj fields =>
          if ty = "object" then
            let res := validateOpenAPICore fields nprops (req.getD [])
            if res.1.isEmpty then .ok (.obj res.2)
            else
              .error ("Field '" ++ fieldPath ++ "' validation failed: " ++
                String.intercalate ", " res.1)
          else .ok v
        | _, some it, .arr xs =>
          if ty = "array" then
            let res := validateItems it fieldPath 0 xs
            if res.1.isEmpty then .ok (.arr res.2)
            else .error (String.intercalate "; " res.1)
          else .ok v
        | _, _, _ => .ok v
termination_by sizeOf p + sizeOf value
decreasing_by
  all_goals simp_wf
  all_goals omega

/-- The per-item loop of validateProperty's array branch: collects item errors
and validated items in order. -/
def validateItems (it : SchemaProp) (fieldPath : String) (i : Nat) (xs : List Value) :
    List String × List Value :=
  match xs with
  | [] => ([], [])
  | x :: rest =>
    let r := validateProperty (some x) it (fieldPath ++ "[" ++ toString i ++ "]")
    let tail := validateItems it fieldPath (i + 1) rest
    match r with
    | .error e => (e :: tail.1, tail.2)
    | .ok w => (tail.1, w :: tail.2)
termination_by sizeOf it + sizeOf xs
decreasing_by
  all_goals simp_wf
  all_goals have h1 := sizeOf_list_pos rest
  all_goals omega

/-- The per-property loop of validateAgainstOpenAPISchema: collects errors and
the validatedData record in schema-property order, skipping optional fields
that are absent or null. -/
def validateProps (data : List (String × Value)) (required : List String)
    (props : List (String × SchemaProp)) : List String × List (String × Value) :=
  match props with
  | [] => ([], [])
  | (fieldName, property) :: rest =>
    let value := lookupVal data fieldName
    let tail := validateProps data required rest
    if skipsField data required fieldName then
      tail
    else
      match validateProperty value property fieldName with
      | .error e => (e :: tail.1, tail.2)
      | .ok w => (tail.1, (fieldName, w) :: tail.2)
termination_by sizeOf props + sizeOf data
decreasing_by
  all_goals simp_wf
  all_goals have h1 := sizeOf_lookupVal_le data fieldName
  all_goals omega

/-- The error/validatedData computation of validateAgainstOpenAPISchema:
missing-required errors, then declared-field errors, then unexpected-field
errors (the source pushes them into one array in this order). -/
def validateOpenAPICore (data : List (String × Value))
    (props : List (String × SchemaProp)) (required : List String) :
    List String × List (String × Value) :=
  let errs1 := (required.filter fun f => missingRequired data f).map
    fun f => "Missing required field: " ++ f
  let body := validateProps data required props
  let errs3 := ((data.map Prod.fst).filter fun k =>
    ¬ (props.map Prod.fst).contains k).map fun k => "Unexpected field: " ++ k
  (errs1 ++ body.1 ++ errs3, body.2)
termination_by sizeOf props + sizeOf data + 1
decreasing_by
  all_goals simp_wf

end

/-- ValidationResult from src/utils/openApiSpec.ts. -/
structure ValidationResult : Type where
  isValid : Bool
  data : Option (List (String × Value))
  errors : Option (List String)

/-- validateAgainstOpenAPISchema from src/utils/openApiSpec.ts: packages the
core error/validatedData computation (`data` present iff no errors, `errors`
present iff nonempty). -/
def validateAgainstOpenAPISchema (data : List (String × Value))
    (schema : OpenAPISchema) : ValidationResult :=
  let core := validateOpenAPICore data schema.properties (schema.required.getD [])
  { isValid := core.1.isEmpty
    data := if core.1.isEmpty then some core.2 else none
    errors := if core.1.isEmpty then none else some core.1 }

/-- validateAgainstSchema from src/utils/openApiSpec.ts. -/
def validateAgainstSchema (data : List (String × Value))
    (schema : ParametersSchema) : ValidationResult :=
  validateAgainstOpenAPISchema data (normalizeToOpenAPISchema schema)

/-- JS deep (structural) equality of runtime values: objects compare by key
set and per-key value, insensitive to key order; arrays compare pointwise. -/
def Value.equiv : Value → Value → Bool
  | .str s, .str t => s = t
  | .num n, .num m => n = m
  | .bool b, .bool c => b = c
  | .null, .null => true
  | .arr xs, .arr ys =>
    decide (xs.length = ys.length) &&
    (xs.zip ys).attach.all fun p => Value.equiv p.1.1 p.1.2
  | .obj a, .obj b =>
    (a.attach.all fun kv =>
      match lookupVal b kv.1.1 with
      | some w => Value.equiv kv.1.2 w
      | none => false) &&
    (b.all fun kv => (lookupVal a kv.1).isSome)
  | _, _ => false
termination_by v _ => sizeOf v
decreasing_by
  · obtain ⟨⟨a1, b1⟩, hm⟩ := p
    have h1 := List.sizeOf_lt_of_mem (List.of_mem_zip hm).1
    dsimp only
    simp only [Value.arr.sizeOf_spec]
    omega
  · obtain ⟨⟨k1, v1⟩, hm⟩ := kv
    have h1 := List.sizeOf_lt_of_mem hm
    dsimp only
    simp only [Value.obj.sizeOf_spec, Prod.mk.sizeOf_spec] at *
    omega

/-- A runtime value every one of whose nested objects has unique keys: the
shape every value built from JS objects has (JS objects cannot carry
duplicate keys). -/
def Value.wfRecord : Value → Bool
  | .obj fs =>
    decide ((fs.map Prod.fst).Nodup) &&
    fs.attach.all fun kv => kv.1.2.wfRecord
  | .arr xs => xs.attach.all fun x => x.1.wfRecord
  | _ => true
termination_by v => sizeOf v
decreasing_by
  · have h1 := List.sizeOf_lt_of_mem kv.2
    have h2 : sizeOf kv.1.2 < sizeOf kv.1 := by
      obtain ⟨⟨a1, b1⟩, hm⟩ := kv
      simp only [Prod.mk.sizeOf_spec]
      omega
    simp only [Value.obj.sizeOf_spec]
    omega
  · have h1 := List.sizeOf_lt_of_mem x.2
    simp only [Value.arr.sizeOf_spec]
    omega

/-- Unique keys on a record (the top-level form of Value.wfRecord). -/
def recordWF (data : List (String × Value)) : Bool :=
  Value.wfRecord (.obj data)

/-- A schema property every one of whose nested property lists has unique
keys (schemas are JS objects, so their property records cannot carry
duplicate keys). -/
def SchemaProp.wf : SchemaProp → Bool
  | .mk _ _ _ _ _ _ props _ items _ =>
    (match props with
     | some nprops =>
       decide ((nprops.map Prod.fst).Nodup) &&
       nprops.attach.all fun q => q.1.2.wf
     | none => true) &&
    (match items with
     | some it => it.wf
     | none => true)
termination_by p => sizeOf p
decreasing_by
  · have h1 := List.sizeOf_lt_of_mem q.2
    have h2 : sizeOf q.1.2 < sizeOf q.1 := by
      obtain ⟨⟨a1, b1⟩, hm⟩ := q
      simp only [Prod.mk.sizeOf_spec]
      omega
    simp only [SchemaProp.mk.sizeOf_spec, Option.some.sizeOf_spec]
    omega
  · simp only [SchemaProp.mk.sizeOf_spec, Option.some.sizeOf_spec]
    omega

/-- Well-formedness of an OpenAPI property list: unique keys, all well. -/
def propsWF (props : List (String × SchemaProp)) : Bool :=
  decide ((props.map Prod.fst).Nodup) && props.all fun q => q.2.wf

/-- Passing every primitive type check of validateProperty ("correctly
typed" in the claim's sense). -/
def typeMatches (ty : String) (v : Value) : Bool :=
  (!(decide (ty = "integer")) || (jsTypeof v == "number")) &&
  (!(decide (ty = "number")) || (jsTypeof v == "number")) &&
  (!(decide (ty = "string")) || (jsTypeof v == "string")) &&
  (!(decide (ty = "boolean")) || (jsTypeof v == "boolean")) &&
  (!(decide (ty = "array")) || v.isArr) &&
  (!(decide (ty = "object")) || v.isObj)

/-- The non-recursive part of field conformance: non-null, correctly typed,
in the declared enum, within the declared string/number bounds. -/
def ConformantScalar (v : Value) (p : SchemaProp) : Bool :=
  match p with
  | .mk ty en mi ma minL maxL _props _req _items _dsc =>
    (match v with | .null => false | _ => true) &&
    typeMatches ty v &&
    (match en with | some l => enumIncludes l v | none => true) &&
    (stringBoundsError minL maxL "x" v).isNone &&
    (numBoundsError mi ma "x" v).isNone

mutual

/-- Formalizes the hypothesis of the spec's validator round-trip property for
one declared field value: non-null, correctly typed, in the declared enum,
within the declared string/number bounds, and recursively conformant for
declared nested objects and array items. -/
def ConformantProp (v : Value) (p : SchemaProp) : Bool :=
  match p with
  | .mk ty _en _mi _ma _minL _maxL props req items _dsc =>
    ConformantScalar v p &&
    (match v, props with
     | .obj fields, some nprops =>
       if ty = "object" then ConformantData fields nprops (req.getD []) else true
     | _, _ => true) &&
    (match v, items with
     | .arr xs, some it =>
       if ty = "array" then xs.attach.all fun x => ConformantProp x.1 it
       else true
     | _, _ => true)
termination_by sizeOf v + sizeOf p
decreasing_by
  · simp only [SchemaProp.mk.sizeOf_spec, Option.some.sizeOf_spec, Value.obj.sizeOf_spec]
    omega
  · have h1 := List.sizeOf_lt_of_mem x.2
    simp only [SchemaProp.mk.sizeOf_spec, Option.some.sizeOf_spec, Value.arr.sizeOf_spec]
    omega

/-- Formalizes the hypothesis of the spec's validator round-trip property on
a record: all required fields present and non-null, every present declared
field conformant, and no undeclared fields. -/
def ConformantData (data : List (String × Value))
    (props : List (String × SchemaProp)) (required : List String) : Bool :=
  (required.all fun f =>
    match lookupVal data f with
    | some .null => false
    | some _ => true
    | none => false) &&
  (props.attach.all fun fp =>
    match h : lookupVal data fp.1.1 with
    | none => true
    | some v => ConformantProp v fp.1.2) &&
  (data.all fun kv => (props.map Prod.fst).contains kv.1)
termination_by sizeOf data + sizeOf props
decreasing_by
  · have h1 := List.sizeOf_lt_of_mem fp.2
    have h2 : sizeOf fp.1.2 < sizeOf fp.1 := by
      obtain ⟨⟨a1, b1⟩, hm⟩ := fp
      simp only [Prod.mk.sizeOf_spec]
      omega
    have h3 := sizeOf_lookupVal_le data fp.1.1
    rw [h] at h3
    simp only [Option.some.sizeOf_spec] at h3
    omega

end

/-- Tool from src/types/agent.types.ts.  `execute` is the tool author's async
function, embedded as a pure fallible function on argument records. -/
structure Tool : Type where
  name : String
  description : String
  parametersSchema : ParametersSchema
  execute : List (String × Value) → Except String Value
  agentic : Bool
  validate : Bool
  systemPrompt : Option String

/-- ToolCall from src/types/agent.types.ts. -/
structure ToolCall : Type where
  tool : String
  arguments : Option (List (String × Value)) := none
  context : Option String := none

/-- StructuredOutputRequest from src/types/llmService.types.ts (the fields
the agent sets; the numeric sampling overrides, which never influence the
agent's control flow, are not tracked). -/
structure StructuredRequest : Type where
  prompt : String
  schema : List (String × Value)
  description : String
  modelOverride : Option String := none

/-- StructuredLLMResponse from src/types/llmService.types.ts. -/
structure LLMResponse : Type where
  isValid : Bool
  structuredData : Option (List (String × Value))
  validationErrors : Option (List String)

/-- Events observed while running callTool: gateway invocations and tool
execute invocations (with the attempt number and the arguments passed). -/
inductive AgentEvent : Type where
  | llmCall (req : StructuredRequest)
  | toolExec (attempt : Nat) (args : List (String × Value))

/-- The agent's state: its registry, retry budget and injected LLM service
(an oracle from requests to thrown-error-or-response). -/
structure AgentEnv : Type where
  tools : List Tool
  maxRetries : Nat
  llm : StructuredRequest → Except String LLMResponse

/-- JS template interpolation of a possibly-undefined value. -/
def joinValidationErrorsJS : Option (List String) → String
  | none => "undefined"
  | some l => String.intercalate ", " l

/-- The source's `errors?.join(", ") || "Unknown validation error"`. -/
def joinErrorsOrUnknown : Option (List String) → String
  | none => "Unknown validation error"
  | some l =>
    let j := String.intercalate ", " l
    if j = "" then "Unknown validation error" else j

/-- getJsonSchema from src/implementations/agent.ts: the simplified JSON
schema handed to the LLM service for structured output. -/
def getJsonSchema (schema : ParametersSchema) : List (String × Value) :=
  let openAPISchema := normalizeToOpenAPISchema schema
  openAPISchema.properties.map fun kv =>
    let property := kv.2
    (kv.1,
      if property.type = "integer" then Value.str "number"
      else if property.type = "array" ∧ property.items.isSome then Value.str "array"
      else if property.type = "object" ∧ property.properties.isSome then
        Value.obj ((property.properties.getD []).map fun nk =>
          (nk.1, Value.str (if nk.2.type = "integer" then "number" else nk.2.type)))
      else Value.str property.type)

/-- buildParameterDescriptions from src/implementations/agent.ts. -/
def buildParameterDescriptions (schema : ParametersSchema) : String :=
  let openAPISchema := normalizeToOpenAPISchema schema
  let requiredFields := openAPISchema.required.getD []
  String.intercalate "\n" (openAPISchema.properties.map fun kv =>
    let name := kv.1
    let property := kv.2
    let isRequired := requiredFields.contains name
    let typeDesc := if property.type = "integer" then "number" else property.type
    let desc := match property.description with
      | some d => if d = "" then "" else " - " ++ d
      | none => ""
    let requiredTag := if isRequired then " (required)" else " (optional)"
    let enumDesc := match property.enumVals with
      | some l => " - one of: " ++ enumJoin l
      | none => ""
    "- " ++ name ++ ": " ++ typeDesc ++ requiredTag ++ desc ++ enumDesc)

/-- The extraction prompt built by generateStructuredDataForTool. -/
def extractionPrompt (tool : Tool) (distilledContext : String) : String :=
  let hasSystemPrompt : Bool := match tool.systemPrompt with
    | some s => decide (s.length > 0)
    | none => false
  "Extract the following parameters from the provided context:\n\nRequired Parameters:\n" ++
  buildParameterDescriptions tool.parametersSchema ++ "\n\n" ++
  (if hasSystemPrompt then "SYSTEM PROMPT: " ++ tool.systemPrompt.getD "" else "") ++
  "\n\nContext:\n" ++ distilledContext ++
  "\n\nExtract and return all parameters as JSON matching the strict schema. Ensure all required parameters are present and correctly typed."

/-- The structured-output request sent by generateStructuredDataForTool. -/
def extractionRequest (tool : Tool) (distilledContext : String) : StructuredRequest :=
  { prompt := extractionPrompt tool distilledContext
    schema := getJsonSchema tool.parametersSchema
    description := "Extract parameters for " ++ tool.name }

/-- The retry prompt built by regenerateStructuredDataWithError. -/
def regenerationPrompt (tool : Tool) (context errorMessage : String) : String :=
  "Extract the following parameters from the provided context. A previous attempt failed with an error - use this information to generate better parameters:\n\nRequired Parameters:\n" ++
  buildParameterDescriptions tool.parametersSchema ++
  "\n\nContext:\n" ++ context ++
  "\n\nPrevious Error:\n" ++ errorMessage ++
  "\n\nExtract and return all parameters as JSON matching the strict schema. Ensure all required parameters are present and correctly typed. Consider the error message to avoid similar issues."

/-- The structured-output request sent by regenerateStructuredDataWithError
(pinned to the mini model in the source). -/
def regenerationRequest (tool : Tool) (context errorMessage : String) :
    StructuredRequest :=
  { prompt := regenerationPrompt tool context errorMessage
    schema := getJsonSchema tool.parametersSchema
    description := "Regenerate parameters for " ++ tool.name ++ " with error feedback"
    modelOverride := some "gpt-4o-mini" }

/-- generateStructuredDataForTool from src/implementations/agent.ts: one
gateway call, response validity check, then strict schema validation; every
failure inside the try block is re-wrapped by the catch as an LLM service
error for the tool. -/
def generateStructuredDataForTool (llm : StructuredRequest → Except String LLMResponse)
    (tool : Tool) (distilledContext : String) :
    Except String (List (String × Value)) × List AgentEvent :=
  let req := extractionRequest tool distilledContext
  let inner : Except String (List (String × Value)) :=
    match llm req with
    | .error e => .error e
    | .ok response =>
      if !response.isValid then
        .error ("Failed to generate valid structured data for tool '" ++ tool.name ++
          "': " ++ joinValidationErrorsJS response.validationErrors)
      else
        let extractedData := response.structuredData.getD []
        let validationResult := validateAgainstSchema extractedData tool.parametersSchema
        if !validationResult.isValid then
          .error ("Extracted data failed strict validation for tool '" ++ tool.name ++
            "': " ++ joinErrorsOrUnknown validationResult.errors)
        else
          .ok (validationResult.data.getD [])
  match inner with
  | .error e =>
    (.error ("LLM service error for tool '" ++ tool.name ++ "': " ++ e), [.llmCall req])
  | .ok validatedData => (.ok validatedData, [.llmCall req])

/-- regenerateStructuredDataWithError from src/implementations/agent.ts. -/
def regenerateStructuredDataWithError (llm : StructuredRequest → Except String LLMResponse)
    (tool : Tool) (context errorMessage : String) :
    Except String (List (String × Value)) × List AgentEvent :=
  let req := regenerationRequest tool context errorMessage
  let inner : Except String (List (String × Value)) :=
    match llm req with
    | .error e => .error e
    | .ok response =>
      if !response.isValid then
        .error ("Failed to regenerate valid structured data for tool '" ++ tool.name ++
          "': " ++ joinValidationErrorsJS response.validationErrors)
      else
        let extractedData := response.structuredData.getD []
        let validationResult := validateAgainstSchema extractedData tool.parametersSchema
        if !validationResult.isValid then
          .error ("Regenerated data failed strict validation for tool '" ++ tool.name ++
            "': " ++ joinErrorsOrUnknown validationResult.errors)
        else
          .ok (validationResult.data.getD [])
  match inner with
  | .error e =>
    (.error ("LLM service error while regenerating data for tool '" ++ tool.name ++
      "': " ++ e), [.llmCall req])
  | .ok validatedData => (.ok validatedData, [.llmCall req])

/-- The inner try/catch of callTool's retry loop (source lines 510-550):
regenerate with error feedback and re-validate; any failure is swallowed
(`none`), keeping the previous arguments. -/
def regenAttempt (env : AgentEnv) (tool : Tool) (context lastError : String) :
    Option (List (String × Value)) × List AgentEvent :=
  match regenerateStructuredDataWithError env.llm tool context lastError with
  | (.error _, ev) => (none, ev)
  | (.ok regeneratedArgs, ev) =>
    let regeneratedValidationResult := validateAgainstSchema regeneratedArgs tool.parametersSchema
    if !regeneratedValidationResult.isValid then (none, ev)
    else (some (regeneratedValidationResult.data.getD regeneratedArgs), ev)

/-- JS rendering of `lastError?.message` when lastError may be null. -/
def lastErrorMsg : Option String → String
  | none => "undefined"
  | some e => e

/-- The failure message thrown after exhausting all attempts. -/
def retryFailureMsg (toolName : String) (maxRetries : Nat) (lastError : Option String) : String :=
  "Tool '" ++ toolName ++ "' failed after " ++ toString maxRetries ++
  " attempts: " ++ lastErrorMsg lastError

/-- The retry loop of callTool (source lines 502-586), with `remaining`
counting the attempts left (`attempt` is the source's 1-based counter). -/
def retryLoop (env : AgentEnv) (tool : Tool) (toolName context : String)
    (shouldRegen : Bool) :
    Nat → Nat → List (String × Value) → Option String →
    Except String Value × List AgentEvent
  | 0, _, _, lastError =>
    (.error (retryFailureMsg toolName env.maxRetries lastError), [])
  | remaining + 1, attempt, finalArgs, lastError =>
    let regen : List (String × Value) × List AgentEvent :=
      if attempt > 1 ∧ shouldRegen = true ∧ lastError.isSome then
        match regenAttempt env tool context (lastError.getD "") with
        | (some newArgs, ev) => (newArgs, ev)
        | (none, ev) => (finalArgs, ev)
      else (finalArgs, [])
    match tool.execute regen.1 with
    | .ok result => (.ok result, regen.2 ++ [.toolExec attempt regen.1])
    | .error e =>
      let tail := retryLoop env tool toolName context shouldRegen remaining
        (attempt + 1) regen.1 (some e)
      (tail.1, regen.2 ++ [.toolExec attempt regen.1] ++ tail.2)

/-- callTool from src/implementations/agent.ts (`orchestratorCall` is the
second parameter, the spec's forceExtraction).  Returns the result together
with the trace of gateway and execute invocations. -/
def callTool (env : AgentEnv) (toolCall : ToolCall) (orchestratorCall : Bool) :
    Except String Value × List AgentEvent :=
  let toolName := toolCall.tool
  let args := toolCall.arguments.getD []
  match env.tools.find? (fun t => t.name = toolName) with
  | none => (.error ("Tool '" ++ toolName ++ "' not found"), [])
  | some tool =>
    let hasArguments : Bool := decide (args.length > 0)
    let hasContext : Bool := match toolCall.context with
      | some s => s ≠ ""
      | none => false
    if !hasArguments && !hasContext then
      (.error ("Tool call for '" ++ toolName ++
        "' requires either 'arguments' or 'context' to be provided"), [])
    else
      let phase : Except String (List (String × Value)) × List AgentEvent :=
        if (tool.agentic && !hasArguments && hasContext) || orchestratorCall then
          let contextArg := match toolCall.context with
            | some s => if s = "" then "Generate Arguments for the given tool." else s
            | none => "Generate Arguments for the given tool."
          match generateStructuredDataForTool env.llm tool contextArg with
          | (.ok generatedArgs, ev) => (.ok generatedArgs, ev)
          | (.error e, ev) =>
            (.error ("Failed to extract parameters for agentic tool '" ++ toolName ++
              "': " ++ e), ev)
        else if tool.agentic && hasArguments then (.ok args, [])
        else if tool.agentic && !hasContext then
          (.error ("Agentic tool '" ++ toolName ++
            "' requires either 'arguments' or 'context' to be provided"), [])
        else (.ok args, [])
      match phase with
      | (.error e, ev) => (.error e, ev)
      | (.ok finalArgs0, ev) =>
        let validationResult := validateAgainstSchema finalArgs0 tool.parametersSchema
        if !validationResult.isValid then
          (.error ("Tool call validation failed for '" ++ toolName ++ "': " ++
            joinErrorsOrUnknown validationResult.errors), ev)
        else
          let finalArgs := validationResult.data.getD finalArgs0
          let shouldRegenerateOnRetry := tool.agentic && !hasArguments && hasContext
          let loop := retryLoop env tool toolName (toolCall.context.getD "")
            shouldRegenerateOnRetry env.maxRetries 1 finalArgs none
          (loop.1, ev ++ loop.2)

/-- callTools from src/implementations/agent.ts: sequential execution, first
failure aborts; each inner call is `this.callTool(toolCall)` with the
orchestratorCall parameter defaulted, never forwarded. -/
def callTools (env : AgentEnv) (toolCalls : List ToolCall) (orchestratorCall : Bool) :
    Except String (List Value) × List AgentEvent :=
  match toolCalls with
  | [] => (.ok [], [])
  | tc :: rest =>
    match callTool env tc false with
    | (.error e, ev) => (.error e, ev)
    | (.ok result, ev) =>
      match callTools env rest orchestratorCall with
      | (.error e, ev2) => (.error e, ev ++ ev2)
      | (.ok results, ev2) => (.ok (result :: results), ev ++ ev2)

/-- OrchestratorStatus from src/types/orchestrator.types.ts. -/
inductive OStatus : Type where
  | idle
  | planning
  | executing
  | completed
  | error
deriving DecidableEq

/-- ExecutionStep from src/types/orchestrator.types.ts.  `dependsOn` is an
optional field (steps created by continue() leave it undefined). -/
structure ExecutionStep : Type where
  stepNumber : Int
  description : String
  toolCall : ToolCall
  completed : Bool
  result : Option Value := none
  error : Option String := none
  dependsOn : Option (List Int) := none

/-- OrchestratorState from src/types/orchestrator.types.ts. -/
structure OrchestratorState : Type where
  userQuery : String
  plan : Option String := none
  steps : List ExecutionStep := []
  currentStepIndex : Int := 0
  status : OStatus := .idle
  conversationHistory : List String := []
  context : List (String × Value) := []
  error : Option String := none

/-- A step descriptor inside the LLM planning response. -/
structure PlanStepDesc : Type where
  stepNumber : Int
  description : String
  tool : String
  arguments : Option (List (String × Value)) := none
  dependsOn : Option (List Int) := none

/-- PlanningResponse from src/implementations/agent.ts (orchestrator part). -/
structure PlanningResponse : Type where
  plan : String
  steps : Option (List PlanStepDesc)
  isComplete : Bool

/-- The nextStep descriptor inside a NextStepResponse. -/
structure NextStepDesc : Type where
  stepNumber : Int
  description : String
  tool : String
  arguments : Option (List (String × Value)) := none

/-- NextStepResponse from src/implementations/agent.ts (orchestrator part). -/
structure NextStepResponse : Type where
  shouldContinue : Bool
  nextStep : Option NextStepDesc := none
  finalResponse : Option String := none
  reasoning : Option String := none

/-- Envelope of a structured gateway response (StructuredLLMResponse). -/
structure StructuredData (α : Type) : Type where
  isValid : Bool
  structuredData : Option α
  validationErrors : Option (List String)

/-- The semantic inputs of generatePlan's prompt; the rendered prompt text is
injective in these, so the gateway oracle consumes them directly. -/
structure PlanRequest : Type where
  userQuery : String
  systemPrompt : Option String
  previousPlan : Option PlanningResponse
  completedSteps : Option (List ExecutionStep)

/-- The orchestrator's collaborators: the agent (its registry and callTool)
and the planning/next-step gateway oracles. -/
structure OrchestratorEnv : Type where
  tools : List Tool
  callTool : ToolCall → Bool → Except String Value
  planOracle : PlanRequest → Except String (StructuredData PlanningResponse)
  nextStepOracle : OrchestratorState → Except String (StructuredData NextStepResponse)

/-- OrchestratorConfig (maxSteps, maxIterations after constructor clamping). -/
structure OrchestratorConfig : Type where
  maxSteps : Nat
  maxIterations : Nat

/-- OrchestratorResult from src/types/orchestrator.types.ts. -/
structure OrchestratorResult : Type where
  success : Bool
  finalResponse : String
  steps : List ExecutionStep
  state : OrchestratorState
  error : Option String := none

/-- JS `a || b` on an optional string (empty string is falsy). -/
def jsStringOr (a : Option String) (b : String) : String :=
  match a with
  | some s => if s = "" then b else s
  | none => b

namespace Orchestrator

/-- generatePlan from src/implementations/agent.ts: set status planning, ask
the gateway, and wrap every failure (the oracle's own error as well as the
inner invalid-plan error) as a planning failure, as the source's try/catch
re-wrap does.  Returns the plan and the updated state. -/
def generatePlan (env : OrchestratorEnv) (st : OrchestratorState)
    (userQuery : String) (systemPrompt : Option String)
    (previousPlan : Option PlanningResponse)
    (completedSteps : Option (List ExecutionStep)) :
    Except String PlanningResponse × OrchestratorState :=
  let isRegeneration := previousPlan.isSome
  let st := { st with status := .planning }
  match env.planOracle ⟨userQuery, systemPrompt, previousPlan, completedSteps⟩ with
  | .error e => (.error ("Planning failed: " ++ e), st)
  | .ok response =>
    match response.structuredData with
    | none =>
      (.error ("Planning failed: Failed to generate valid plan: " ++
        joinValidationErrorsJS response.validationErrors), st)
    | some planData =>
      if !response.isValid then
        (.error ("Planning failed: Failed to generate valid plan: " ++
          joinValidationErrorsJS response.validationErrors), st)
      else
        (.ok planData,
          { st with
            plan := some planData.plan
            conversationHistory := st.conversationHistory ++
              [(if isRegeneration then "Plan regenerated: " else "Plan generated: ") ++
                planData.plan] })

/-- determineNextStep from src/implementations/agent.ts: ask the gateway for
the next-step decision over the current state; failures are wrapped like the
source's try/catch re-wrap. -/
def determineNextStep (env : OrchestratorEnv) (st : OrchestratorState) :
    Except String NextStepResponse :=
  match env.nextStepOracle st with
  | .error e => .error ("Next step decision failed: " ++ e)
  | .ok response =>
    match response.structuredData with
    | none =>
      .error ("Next step decision failed: Failed to determine next step: " ++
        joinValidationErrorsJS response.validationErrors)
    | some decision =>
      if !response.isValid then
        .error ("Next step decision failed: Failed to determine next step: " ++
          joinValidationErrorsJS response.validationErrors)
      else .ok decision

/-- convertToExecutionSteps from src/implementations/agent.ts. -/
def convertToExecutionSteps (planResponse : PlanningResponse) : List ExecutionStep :=
  (planResponse.steps.getD []).map fun step =>
    { stepNumber := step.stepNumber
      description := step.description
      toolCall := { tool := step.tool, arguments := some (step.arguments.getD []) }
      completed := false
      dependsOn := some (step.dependsOn.getD []) }

end Orchestrator

/-- JSON string escaping (quote and backslash, as needed by the data here). -/
def escapeJSONString (s : String) : String :=
  String.join (s.data.map fun c =>
    if c = '\\' then "\\\\"
    else if c = '"' then "\\\""
    else String.singleton c)

/-- JSON.stringify for our values (compact form). -/
def jsonStringify : Value → String
  | .str s => "\"" ++ escapeJSONString s ++ "\""
  | .num n => toString n
  | .bool b => toString b
  | .null => "null"
  | .arr xs =>
    "[" ++ String.intercalate "," (xs.attach.map fun x => jsonStringify x.1) ++ "]"
  | .obj fs =>
    "\x7b" ++ String.intercalate ","
      (fs.attach.map fun kv =>
        "\"" ++ escapeJSONString kv.1.1 ++ "\":" ++ jsonStringify kv.1.2) ++ "\x7d"
decreasing_by
  · have := List.sizeOf_lt_of_mem x.2
    simp only [Value.arr.sizeOf_spec]
    omega
  · have := List.sizeOf_lt_of_mem kv.2
    have h2 : sizeOf kv.1.2 < sizeOf kv.1 := by
      obtain ⟨⟨a, b⟩, hm⟩ := kv
      simp only [Prod.mk.sizeOf_spec]
      omega
    simp only [Value.obj.sizeOf_spec]
    omega

/-- The per-dependency rendering in distillContextForAgenticTool: strings as
is, numbers/booleans via toString, arrays/objects (and null, whose typeof is
"object") via JSON.stringify. -/
def renderDepResult : Value → String
  | .str s => s
  | .num n => toString n
  | .bool b => toString b
  | .arr xs => jsonStringify (.arr xs)
  | .obj fs => jsonStringify (.obj fs)
  | .null => jsonStringify .null

namespace Orchestrator

/-- distillContextForAgenticTool from src/implementations/agent.ts. -/
def distillContextForAgenticTool (st : OrchestratorState) (step : ExecutionStep) :
    String :=
  let base := "Task: " ++ st.userQuery ++ "\n\nCurrent action: " ++ step.description
  match step.dependsOn with
  | none => base
  | some deps =>
    if deps.length > 0 then
      let dataPoints := deps.filterMap fun depStepNum =>
        match st.steps.find? (fun s => s.stepNumber = depStepNum) with
        | none => none
        | some depStep =>
          if depStep.completed then
            match depStep.result with
            | some r =>
              some ("Step " ++ toString depStep.stepNumber ++ " (" ++
                depStep.description ++ "):\n" ++ renderDepResult r)
            | none => none
          else none
      if dataPoints.length > 0 then
        base ++ "\n\nAvailable data from previous steps:\n" ++
          String.intercalate "\n\n" dataPoints
      else base
    else base

/-- The unmet-dependency error thrown at the top of executeStep. -/
def stepDepErrorMsg (step : ExecutionStep) (unsatisfied : List Int) : String :=
  "Step " ++ toString step.stepNumber ++ " depends on steps " ++
  String.intercalate ", " (unsatisfied.map toString) ++
  " which are not yet completed"

/-- The unsatisfied dependencies computed at the top of executeStep. -/
def unsatisfiedDeps (steps : List ExecutionStep) (step : ExecutionStep) : List Int :=
  match step.dependsOn with
  | none => []
  | some deps =>
    if deps.length > 0 then
      deps.filter fun depNum =>
        match steps.find? (fun s => s.stepNumber = depNum) with
        | some depStep => !depStep.completed
        | none => true
    else []

/-- executeStep from src/implementations/agent.ts, acting on the step at list
position `idx` of the state's steps (the source mutates the step object in
place; positions name steps uniquely even under duplicated step numbers).
The dependency check precedes the try block, so on an unmet dependency the
state is returned unchanged and the agent is never consulted. -/
def executeStep (env : OrchestratorEnv) (st : OrchestratorState) (idx : Nat) :
    Except String Value × OrchestratorState :=
  match st.steps.get? idx with
  | none => (.error "internal: step index out of range", st)
  | some step =>
    let unsatisfied := unsatisfiedDeps st.steps step
    if unsatisfied.length > 0 then
      (.error (stepDepErrorMsg step unsatisfied), st)
    else
      let st := { st with status := .executing }
      let tool := env.tools.find? (fun t => t.name = step.toolCall.tool)
      let isAgentic := match tool with | some t => t.agentic | none => false
      let distilledContext :=
        if isAgentic then distillContextForAgenticTool st step else st.userQuery
      let toolCallWithContext : ToolCall :=
        if isAgentic && (step.toolCall.arguments.getD []).isEmpty then
          { step.toolCall with context := some distilledContext }
        else step.toolCall
      match env.callTool toolCallWithContext true with
      | .ok result =>
        let newStep := { step with completed := true, result := some result }
        (.ok result,
          { st with
            steps := st.steps.set idx newStep
            context := st.context ++
              [("step_" ++ toString step.stepNumber ++ "_result", result)]
            conversationHistory := st.conversationHistory ++
              ["Step " ++ toString step.stepNumber ++ " completed: " ++
                step.description] })
      | .error errorMessage =>
        let newStep := { step with error := some errorMessage }
        (.error ("Step " ++ toString step.stepNumber ++ " execution failed: " ++
            errorMessage),
          { st with
            steps := st.steps.set idx newStep
            conversationHistory := st.conversationHistory ++
              ["Step " ++ toString step.stepNumber ++ " failed: " ++ errorMessage] })

/-- The dependency test of findNextExecutableStep. -/
def depsSatisfied (steps : List ExecutionStep) (step : ExecutionStep) : Bool :=
  match step.dependsOn with
  | none => true
  | some deps =>
    if deps.isEmpty then true
    else deps.all fun depNum =>
      match steps.find? (fun s => s.stepNumber = depNum) with
      | some depStep => depStep.completed
      | none => false

/-- findNextExecutableStep from src/implementations/agent.ts, returning the
position (in `steps`) of the chosen step: among incomplete steps those with
all dependencies completed, the minimum by stepNumber (the reduce keeps the
earlier one on ties); when none is executable, the first incomplete step. -/
def findNextExecutableStepIdx (steps : List ExecutionStep) : Option Nat :=
  let pending := steps.enum.filter fun p => !p.2.completed
  match pending with
  | [] => none
  | firstPending :: _ =>
    let executable := pending.filter fun p => depsSatisfied steps p.2
    match executable with
    | [] => some firstPending.1
    | first :: rest =>
      some (rest.foldl
        (fun mn p => if p.2.stepNumber < mn.2.stepNumber then p else mn) first).1

/-- The plan-merge performed after a replanning in execute (source lines
1560-1583): keep completed steps, renumber the fresh plan's steps to continue
after the highest existing step number, drop new steps whose number collides
with a completed one (never the case, as proved below). -/
def mergeReplanned (steps : List ExecutionStep) (planResponse : PlanningResponse) :
    List ExecutionStep :=
  let completedSteps := steps.filter (·.completed)
  let maxStepNumber := (steps.map (·.stepNumber)).foldl max 0
  let newSteps := (convertToExecutionSteps planResponse).enum.map fun p =>
    { p.2 with stepNumber := maxStepNumber + (p.1 : Int) + 1 }
  completedSteps ++ newSteps.filter fun newStep =>
    !(completedSteps.any fun cs => cs.stepNumber = newStep.stepNumber)

/-- The regeneration ceiling hard-coded in execute. -/
def maxPlanRegenerations : Nat := 3

/-- The result built by execute's outer catch block. -/
def catchResult (st : OrchestratorState) (errorMessage : String) :
    OrchestratorResult :=
  let st := { st with status := .error, error := some errorMessage }
  { success := false
    finalResponse := "Execution failed: " ++ errorMessage
    steps := st.steps.filter (·.completed)
    state := st
    error := some errorMessage }

/-- The main execution loop of execute (source lines 1487-1601), written with
fuel (`none` = fuel exhausted; every claim about the loop is conditional on
the loop returning). -/
def execLoop (env : OrchestratorEnv) (cfg : OrchestratorConfig)
    (userQuery : String) (systemPrompt : Option String) :
    Nat → OrchestratorState → PlanningResponse → Nat → Option OrchestratorResult
  | 0, _, _, _ => none
  | fuel + 1, st, planResponse, planRegenerationCount =>
    if planRegenerationCount > maxPlanRegenerations then
      -- while-loop exit: unreachable from execute, the count never exceeds the ceiling
      let st := { st with status := .completed }
      some { success := true
             finalResponse := "Execution completed (reached maximum plan regenerations)."
             steps := st.steps.filter (·.completed)
             state := st }
    else
      match findNextExecutableStepIdx st.steps with
      | none =>
        let st := { st with status := .completed }
        match determineNextStep env st with
        | .error e => some (catchResult st e)
        | .ok finalDecision =>
          some { success := true
                 finalResponse := jsStringOr finalDecision.finalResponse
                   "All planned steps completed successfully."
                 steps := st.steps.filter (·.completed)
                 state := st }
      | some idx =>
        if st.steps.length ≥ cfg.maxSteps then
          let st := { st with status := .completed }
          some { success := true
                 finalResponse := "Execution completed (reached maximum steps limit)."
                 steps := st.steps.filter (·.completed)
                 state := st }
        else
          let nextStepNumber := match st.steps.get? idx with
            | some s => s.stepNumber
            | none => 0
          let st := { st with currentStepIndex := nextStepNumber - 1 }
          match executeStep env st idx with
          | (.ok _, st') =>
            execLoop env cfg userQuery systemPrompt fuel st' planResponse
              planRegenerationCount
          | (.error stepErrorMsg, st') =>
            if planRegenerationCount ≥ maxPlanRegenerations then
              let st'' := { st' with status := .error, error := some stepErrorMsg }
              some { success := false
                     finalResponse := "Execution failed after " ++
                       toString maxPlanRegenerations ++ " plan regenerations: " ++
                       stepErrorMsg
                     steps := st''.steps.filter (·.completed)
                     state := st''
                     error := some stepErrorMsg }
            else
              let completedSteps := st'.steps.filter (·.completed)
              match generatePlan env st' userQuery systemPrompt (some planResponse)
                  (some completedSteps) with
              | (.error e, stP) => some (catchResult stP e)
              | (.ok newPlan, stP) =>
                let stM := { stP with steps := mergeReplanned stP.steps newPlan }
                execLoop env cfg userQuery systemPrompt fuel stM newPlan
                  (planRegenerationCount + 1)

/-- Orchestrator.execute from src/implementations/agent.ts: reset state,
generate the initial plan, handle the empty-complete plan, then run the
execution loop. -/
def execute (env : OrchestratorEnv) (cfg : OrchestratorConfig)
    (userQuery : String) (systemPrompt : Option String) (fuel : Nat) :
    Option OrchestratorResult :=
  let st0 : OrchestratorState := { userQuery := userQuery }
  match generatePlan env st0 userQuery systemPrompt none none with
  | (.error e, stP) => some (catchResult stP e)
  | (.ok planResponse, stP) =>
    let st1 := { stP with steps := convertToExecutionSteps planResponse }
    if planResponse.isComplete && st1.steps.isEmpty then
      let st2 := { st1 with status := .completed }
      some { success := true
             finalResponse := "Task completed successfully without requiring tool calls."
             steps := []
             state := st2 }
    else
      execLoop env cfg userQuery systemPrompt fuel st1 planResponse 0

end Orchestrator

/-! Characterizations of the validator loops. -/

theorem validateProps_eq (data : List (String × Value)) (required : List String)
    (props : List (String × SchemaProp)) :
    validateProps data required props =
      (props.filterMap fun fp =>
        if skipsField data required fp.1 then none
        else match validateProperty (lookupVal data fp.1) fp.2 fp.1 with
          | .error e => some e
          | .ok _ => none,
       props.filterMap fun fp =>
        if skipsField data required fp.1 then none
        else match validateProperty (lookupVal data fp.1) fp.2 fp.1 with
          | .error _ => none
          | .ok w => some (fp.1, w)) := by
  induction props with
  | nil => simp [validateProps]
  | cons fp rest ih =>
    obtain ⟨f, p⟩ := fp
    rw [validateProps]
    by_cases hs : skipsField data required f
    · simp only [hs, if_true, ih, List.filterMap_cons]
    · simp only [hs, if_false, Bool.false_eq_true, ih, List.filterMap_cons]
      cases hvp : validateProperty (lookupVal data f) p f <;>
        simp_all [List.filterMap_cons]

/-! Lookup utilities on association lists. -/

theorem lookupVal_isSome_of_mem {data : List (String × Value)} {k : String}
    {v : Value} (h : (k, v) ∈ data) : (lookupVal data k).isSome := by
  induction data with
  | nil => simp at h
  | cons kv rest ih =>
    rw [lookupVal]
    by_cases hk : kv.1 = k
    · rw [List.find?_cons_of_pos _ (by simp [hk])]
      simp
    · rw [List.find?_cons_of_neg _ (by simp [hk])]
      rcases List.mem_cons.mp h with h1 | h1
      · subst h1; simp at hk
      · exact ih h1

theorem mem_of_lookupVal_eq_some {data : List (String × Value)} {k : String}
    {v : Value} (h : lookupVal data k = some v) : (k, v) ∈ data := by
  induction data with
  | nil => simp [lookupVal] at h
  | cons kv rest ih =>
    rw [lookupVal] at h
    by_cases hk : kv.1 = k
    · rw [List.find?_cons_of_pos _ (by simp [hk])] at h
      simp only [Option.map_some', Option.some.injEq] at h
      obtain ⟨a, b⟩ := kv
      simp only at hk h
      subst hk
      subst h
      exact List.mem_cons_self _ _
    · rw [List.find?_cons_of_neg _ (by simp [hk])] at h
      exact List.mem_cons_of_mem _ (ih h)

theorem lookupVal_eq_none_iff {data : List (String × Value)} {k : String} :
    lookupVal data k = none ↔ k ∉ data.map Prod.fst := by
  constructor
  · intro h hk
    obtain ⟨⟨a, b⟩, hm, he⟩ := List.mem_map.mp hk
    subst he
    have := lookupVal_isSome_of_mem hm
    rw [h] at this
    simp at this
  · intro h
    cases he : lookupVal data k with
    | none => rfl
    | some v =>
      exact absurd (List.mem_map_of_mem Prod.fst (mem_of_lookupVal_eq_some he)) h

theorem lookupVal_eq_some_of_nodup {data : List (String × Value)} {k : String}
    {v : Value} (hnd : (data.map Prod.fst).Nodup) (h : (k, v) ∈ data) :
    lookupVal data k = some v := by
  induction data with
  | nil => simp at h
  | cons kv rest ih =>
    obtain ⟨a, b⟩ := kv
    simp only [List.map_cons, List.nodup_cons] at hnd
    rw [lookupVal]
    rcases List.mem_cons.mp h with h1 | h1
    · injection h1 with h2 h3
      subst h2; subst h3
      rw [List.find?_cons_of_pos _ (by simp)]
      rfl
    · have hak : a ≠ k := by
        intro he
        subst he
        exact hnd.1 (List.mem_map_of_mem Prod.fst h1)
      rw [List.find?_cons_of_neg _ (by simp [hak])]
      exact (ih hnd.2 h1 : _)

theorem mem_zip_self {α : Type _} {l : List α} {p : α × α} (h : p ∈ l.zip l) :
    p.1 = p.2 := by
  induction l with
  | nil => simp at h
  | cons x rest ih =>
    rcases List.mem_cons.mp (by simpa [List.zip_cons_cons] using h) with h1 | h1
    · subst h1; rfl
    · exact ih h1

/-- Lookup into a filterMap whose function preserves keys. -/
theorem lookupVal_filterMap {props : List (String × SchemaProp)}
    (g : String × SchemaProp → Option (String × Value))
    (hkey : ∀ fp r, g fp = some r → r.1 = fp.1)
    (hnd : (props.map Prod.fst).Nodup) {f : String} {p : SchemaProp}
    (hm : (f, p) ∈ props) :
    lookupVal (props.filterMap g) f = (g (f, p)).map Prod.snd := by
  induction props with
  | nil => simp at hm
  | cons fp rest ih =>
    obtain ⟨a, q⟩ := fp
    simp only [List.map_cons, List.nodup_cons] at hnd
    rcases List.mem_cons.mp hm with h1 | h1
    · have ha : a = f := by
        have := congrArg Prod.fst h1.symm
        simpa using this
      have hq : q = p := by
        have := congrArg Prod.snd h1.symm
        simpa using this
      subst ha; subst hq
      rw [List.filterMap_cons]
      cases hg : g (a, q) with
      | none =>
        simp only [hg, Option.map_none']
        rw [lookupVal_eq_none_iff]
        intro hk
        obtain ⟨⟨b, w⟩, hbm, hbe⟩ := List.mem_map.mp hk
        obtain ⟨⟨c, r⟩, hcm, hce⟩ := List.mem_filterMap.mp hbm
        have hbc : b = c := by simpa using hkey (c, r) (b, w) hce
        have hba : b = a := by simpa using hbe
        refine hnd.1 ?_
        rw [← hba, hbc]
        exact List.mem_map_of_mem Prod.fst hcm
      | some r =>
        have hr : r.1 = a := hkey _ _ hg
        simp only [hg]
        rw [lookupVal]
        rw [List.find?_cons_of_pos _ (by simp [hr])]
    · have ha : a ≠ f := by
        intro he
        subst he
        exact hnd.1 (List.mem_map_of_mem Prod.fst h1)
      rw [List.filterMap_cons]
      cases hg : g (a, q) with
      | none => exact ih hnd.2 h1
      | some r =>
        have hr : r.1 = a := hkey _ _ hg
        simp only [hg]
        rw [lookupVal]
        rw [List.find?_cons_of_neg _ (by simp [hr, ha])]
        exact ih hnd.2 h1

/-! Unfolding lemmas for value well-formedness and deep equality. -/

theorem wfRecord_obj {fs : List (String × Value)} :
    (Value.obj fs).wfRecord = true ↔
      (fs.map Prod.fst).Nodup ∧ ∀ kv ∈ fs, kv.2.wfRecord = true := by
  rw [Value.wfRecord]
  simp [List.all_eq_true, List.mem_attach, Subtype.forall]

theorem wfRecord_arr {xs : List Value} :
    (Value.arr xs).wfRecord = true ↔ ∀ x ∈ xs, x.wfRecord = true := by
  rw [Value.wfRecord]
  simp [List.all_eq_true, List.mem_attach, Subtype.forall]

theorem equiv_obj_iff {a b : List (String × Value)} :
    Value.equiv (.obj a) (.obj b) = true ↔
      (∀ kv ∈ a, ∃ w, lookupVal b kv.1 = some w ∧ Value.equiv kv.2 w = true) ∧
      (∀ kv ∈ b, (lookupVal a kv.1).isSome) := by
  rw [Value.equiv]
  simp only [Bool.and_eq_true, List.all_eq_true, List.mem_attach, true_implies,
    Subtype.forall]
  constructor
  · rintro ⟨h1, h2⟩
    refine ⟨?_, fun kv hkv => h2 kv hkv⟩
    intro kv hkv
    have := h1 kv hkv
    cases he : lookupVal b kv.1 with
    | none => rw [he] at this; simp at this
    | some w => rw [he] at this; exact ⟨w, rfl, this⟩
  · rintro ⟨h1, h2⟩
    refine ⟨?_, fun kv hkv => h2 kv hkv⟩
    intro kv hkv
    obtain ⟨w, hw, he⟩ := h1 kv hkv
    rw [hw]
    exact he

theorem equiv_arr_iff {xs ys : List Value} :
    Value.equiv (.arr xs) (.arr ys) = true ↔
      xs.length = ys.length ∧ ∀ p ∈ xs.zip ys, Value.equiv p.1 p.2 = true := by
  rw [Value.equiv]
  simp [List.all_eq_true, List.mem_attach, Subtype.forall]

/-- Deep equality is reflexive on well-formed values. -/
theorem equiv_refl_wf : ∀ (v : Value), v.wfRecord = true → Value.equiv v v = true := by
  intro v
  induction v using Value.wfRecord.induct with
  | case1 fs ih =>
    intro hwf
    obtain ⟨hnd, hall⟩ := wfRecord_obj.mp hwf
    rw [equiv_obj_iff]
    constructor
    · intro kv hkv
      refine ⟨kv.2, ?_, ?_⟩
      · obtain ⟨k1, v1⟩ := kv
        exact lookupVal_eq_some_of_nodup hnd hkv
      · exact ih ⟨kv, hkv⟩ (hall kv hkv)
    · intro kv hkv
      obtain ⟨k1, v1⟩ := kv
      exact lookupVal_isSome_of_mem hkv
  | case2 xs ih =>
    intro hwf
    rw [equiv_arr_iff]
    refine ⟨rfl, ?_⟩
    intro p hp
    obtain ⟨p1, p2⟩ := p
    have h1 : p1 = p2 := mem_zip_self hp
    have h2 : p1 ∈ xs := (List.of_mem_zip hp).1
    subst h1
    exact ih ⟨p1, h2⟩ (wfRecord_arr.mp hwf p1 h2)
  | case3 v hobj harr =>
    intro _
    cases v with
    | str s => rw [Value.equiv]; simp
    | num n => rw [Value.equiv]; simp
    | bool b => rw [Value.equiv]; simp
    | null => rw [Value.equiv]
    | arr xs => exact absurd rfl (harr xs)
    | obj fs => exact absurd rfl (hobj fs)

set_option maxHeartbeats 1000000 in
theorem validateProperty_ok_ne_null : ∀ (value : Option Value) (p : SchemaProp)
    (path : String), ∀ w, validateProperty value p path = .ok w → w ≠ .null := by
  intro value p path
  apply validateProperty.induct
    (fun value p path => ∀ w, validateProperty value p path = .ok w → w ≠ .null)
    (fun _ _ _ _ => True) (fun _ _ _ => True) (fun _ _ _ => True)
  all_goals intros
  all_goals try trivial
  all_goals try (simp_all [validateProperty])
  all_goals try (rename_i hok; subst hok; simp)
  all_goals try (rename_i hok; split at hok <;>
    (intro hcon; rw [hcon] at hok; simp at hok))
  case case3 =>
    rename_i pp fieldPath val e w hne hchk hok
    obtain ⟨ty, en, mi, ma, minL, maxL, props, req, items, dsc⟩ := pp
    cases val <;> cases props <;> cases items <;> simp_all [validateProperty]

theorem stringBoundsError_path_irrel (minL maxL : Option Nat) (p1 p2 : String)
    (v : Value) :
    (stringBoundsError minL maxL p1 v).isNone = (stringBoundsError minL maxL p2 v).isNone := by
  cases v <;> simp only [stringBoundsError] <;> try rfl
  cases minL <;> cases maxL <;> simp only [] <;> split_ifs <;> rfl

theorem numBoundsError_path_irrel (mi ma : Option Int) (p1 p2 : String) (v : Value) :
    (numBoundsError mi ma p1 v).isNone = (numBoundsError mi ma p2 v).isNone := by
  cases v <;> simp only [numBoundsError] <;> try rfl
  cases mi <;> cases ma <;> simp only [] <;> split_ifs <;> rfl

theorem enumIncludes_obj (l : List EnumLit) (a : List (String × Value)) :
    enumIncludes l (.obj a) = false := by
  induction l with
  | nil => rfl
  | cons e rest ih => cases e <;> simpa [enumIncludes, List.any_cons] using ih

theorem enumIncludes_arr (l : List EnumLit) (xs : List Value) :
    enumIncludes l (.arr xs) = false := by
  induction l with
  | nil => rfl
  | cons e rest ih => cases e <;> simpa [enumIncludes, List.any_cons] using ih

/-- A conformant (non-null, correctly typed, in-enum, in-bounds) value passes
every check in validatePropertyChecks, regardless of the field path. -/
theorem checks_none_of_conformant {v : Value} {p : SchemaProp} (path : String)
    (h : ConformantScalar v p = true) :
    validatePropertyChecks v p path = none := by
  obtain ⟨ty, en, mi, ma, minL, maxL, props, req, items, dsc⟩ := p
  rw [ConformantScalar.eq_def] at h
  dsimp only at h
  simp only [Bool.and_eq_true] at h
  obtain ⟨⟨⟨⟨hnn, htm⟩, hen⟩, hsb⟩, hnb⟩ := h
  rw [typeMatches] at htm
  simp only [Bool.and_eq_true, Bool.or_eq_true, Bool.not_eq_true',
    decide_eq_false_iff_not, beq_iff_eq] at htm
  obtain ⟨⟨⟨⟨⟨ht1, ht2⟩, ht3⟩, ht4⟩, ht5⟩, ht6⟩ := htm
  have hsb2 : (stringBoundsError minL maxL path v).isNone = true := by
    rw [stringBoundsError_path_irrel minL maxL path "x"]; exact hsb
  have hnb2 : (numBoundsError mi ma path v).isNone = true := by
    rw [numBoundsError_path_irrel mi ma path "x"]; exact hnb
  rw [validatePropertyChecks.eq_def]
  dsimp only
  rw [if_neg (by rcases ht1 with h | h <;> simp [h] <;> tauto)]
  rw [if_neg (by rcases ht2 with h | h <;> simp [h] <;> tauto)]
  rw [if_neg (by rcases ht3 with h | h <;> simp [h] <;> tauto)]
  rw [if_neg (by rcases ht4 with h | h <;> simp [h] <;> tauto)]
  rw [if_neg (by rcases ht5 with h | h <;> simp_all <;> tauto)]
  rw [if_neg (by rcases ht6 with h | h <;> simp_all <;> tauto)]
  rw [if_neg (by cases en with
    | none => simp
    | some l => simp_all)]
  rw [Option.isNone_iff_eq_none] at hsb2 hnb2
  rw [hsb2, hnb2]

/-- The checks do not distinguish two object values. -/
theorem checks_obj_invariant {a b : List (String × Value)} {p : SchemaProp}
    {path : String} (h : validatePropertyChecks (.obj a) p path = none) :
    validatePropertyChecks (.obj b) p path = none := by
  obtain ⟨ty, en, mi, ma, minL, maxL, props, req, items, dsc⟩ := p
  rw [validatePropertyChecks.eq_def] at h ⊢
  dsimp only at h ⊢
  cases en <;>
    simp only [jsTypeof, Value.isArr, Value.isObj, actualTypeStr,
      enumIncludes_obj, stringBoundsError, numBoundsError] at h ⊢ <;>
    split_ifs at h ⊢ <;> simp_all

/-- The checks do not distinguish two array values. -/
theorem checks_arr_invariant {xs ys : List Value} {p : SchemaProp}
    {path : String} (h : validatePropertyChecks (.arr xs) p path = none) :
    validatePropertyChecks (.arr ys) p path = none := by
  obtain ⟨ty, en, mi, ma, minL, maxL, props, req, items, dsc⟩ := p
  rw [validatePropertyChecks.eq_def] at h ⊢
  dsimp only at h ⊢
  cases en <;>
    simp only [jsTypeof, Value.isArr, Value.isObj, actualTypeStr,
      enumIncludes_arr, stringBoundsError, numBoundsError] at h ⊢ <;>
    split_ifs at h ⊢ <;> simp_all

theorem ConformantProp_parts {v : Value} {ty : String} {en : Option (List EnumLit)}
    {mi ma : Option Int} {minL maxL : Option Nat}
    {props : Option (List (String × SchemaProp))} {req : Option (List String)}
    {items : Option SchemaProp} {dsc : Option String}
    (h : ConformantProp v (.mk ty en mi ma minL maxL props req items dsc) = true) :
    ConformantScalar v (.mk ty en mi ma minL maxL props req items dsc) = true ∧
    (∀ nprops fields, props = some nprops → v = .obj fields → ty = "object" →
      ConformantData fields nprops (req.getD []) = true) ∧
    (∀ it xs, items = some it → v = .arr xs → ty = "array" →
      ∀ x ∈ xs, ConformantProp x it = true) := by
  rw [ConformantProp.eq_def] at h
  dsimp only at h
  simp only [Bool.and_eq_true] at h
  obtain ⟨⟨hsc, hobj⟩, harr⟩ := h
  refine ⟨hsc, ?_, ?_⟩
  · intro nprops fields hp hv hty
    subst hp; subst hv; subst hty
    simpa using hobj
  · intro it xs hp hv hty x hx
    subst hp; subst hv; subst hty
    simp [List.all_eq_true, List.mem_attach, Subtype.forall] at harr
    exact harr x hx

theorem ConformantProp_ne_null {v : Value} {p : SchemaProp}
    (h : ConformantProp v p = true) : v ≠ .null := by
  intro he
  subst he
  obtain ⟨ty, en, mi, ma, minL, maxL, props, req, items, dsc⟩ := p
  rw [ConformantProp.eq_def] at h
  rw [ConformantScalar.eq_def] at h
  simp at h

theorem ConformantData_parts {data : List (String × Value)}
    {props : List (String × SchemaProp)} {required : List String}
    (h : ConformantData data props required = true) :
    (∀ f ∈ required, ∃ v, lookupVal data f = some v ∧ v ≠ .null) ∧
    (∀ fp ∈ props, ∀ v, lookupVal data fp.1 = some v → ConformantProp v fp.2 = true) ∧
    (∀ kv ∈ data, kv.1 ∈ props.map Prod.fst) := by
  rw [ConformantData.eq_def] at h
  simp only [Bool.and_eq_true, List.all_eq_true, List.mem_attach, true_implies,
    Subtype.forall] at h
  obtain ⟨⟨hreq, hprop⟩, hext⟩ := h
  refine ⟨?_, ?_, ?_⟩
  · intro f hf
    have := hreq f hf
    cases he : lookupVal data f with
    | none => rw [he] at this; simp at this
    | some v =>
      rw [he] at this
      cases v <;> simp_all
  · intro fp hfp v hv
    have := hprop fp hfp
    rw [hv] at this
    exact this
  · intro kv hkv
    have := hext kv hkv
    exact List.mem_of_elem_eq_true this

/-- Builds ConformantData from its three component facts. -/
theorem ConformantData_intro {data : List (String × Value)}
    {props : List (String × SchemaProp)} {required : List String}
    (h1 : ∀ f ∈ required, ∃ v, lookupVal data f = some v ∧ v ≠ Value.null)
    (h2 : ∀ fp ∈ props, ∀ v, lookupVal data fp.1 = some v → ConformantProp v fp.2 = true)
    (h3 : ∀ kv ∈ data, kv.1 ∈ props.map Prod.fst) :
    ConformantData data props required = true := by
  rw [ConformantData.eq_def]
  simp only [Bool.and_eq_true, List.all_eq_true, List.mem_attach, true_implies,
    Subtype.forall]
  refine ⟨⟨?_, ?_⟩, ?_⟩
  · intro f hf
    obtain ⟨v, hv, hnn⟩ := h1 f hf
    rw [hv]
    cases v <;> simp_all
  · intro fp hfp
    cases hv : lookupVal data fp.1 with
    | none => simp
    | some v => exact h2 fp hfp v hv
  · intro kv hkv
    exact List.elem_eq_true_of_mem (h3 kv hkv)

/-- A key-preserving filterMap keeps the keys a sublist of the input keys. -/
theorem filterMap_keys_sublist (g : String × SchemaProp → Option (String × Value))
    (hkey : ∀ fp r, g fp = some r → r.1 = fp.1) :
    ∀ props : List (String × SchemaProp),
      ((props.filterMap g).map Prod.fst).Sublist (props.map Prod.fst) := by
  intro props
  induction props with
  | nil => simp
  | cons fp rest ih =>
    rw [List.filterMap_cons]
    cases hg : g fp with
    | none =>
      simp only [List.map_cons]
      exact ih.cons _
    | some r =>
      simp only [List.map_cons]
      rw [hkey fp r hg]
      exact ih.cons₂ _

set_option maxHeartbeats 1000000 in
/-- Pointwise conformance assembles into a successful record validation whose
sanitized output is deep-equal to the input record, well-formed, and itself
conformant (supporting idempotent re-validation). -/
theorem conformant_core (data : List (String × Value))
    (props : List (String × SchemaProp)) (required : List String)
    (hwf : (Value.obj data).wfRecord = true)
    (hndProps : (props.map Prod.fst).Nodup)
    (hconf : ConformantData data props required = true)
    (hpt : ∀ fp ∈ props, ∀ v, lookupVal data fp.1 = some v → v.wfRecord = true →
      ConformantProp v fp.2 = true →
      ∃ w, validateProperty (some v) fp.2 fp.1 = .ok w ∧ Value.equiv w v = true ∧
        w.wfRecord = true ∧ ConformantProp w fp.2 = true) :
    ∃ vd, validateOpenAPICore data props required = ([], vd) ∧
      Value.equiv (.obj vd) (.obj data) = true ∧
      (Value.obj vd).wfRecord = true ∧
      ConformantData vd props required = true := by
  obtain ⟨hreq, hprop, hundecl⟩ := ConformantData_parts hconf
  obtain ⟨hndData, hvalsWF⟩ := wfRecord_obj.mp hwf
  have hmiss : ∀ f ∈ required, missingRequired data f = false := by
    intro f hf
    obtain ⟨v, hv, hnn⟩ := hreq f hf
    rw [missingRequired, hv]
    cases v <;> simp_all
  have hentry : ∀ fp ∈ props, skipsField data required fp.1 = false →
      ∃ v w, lookupVal data fp.1 = some v ∧
        validateProperty (some v) fp.2 fp.1 = .ok w ∧ Value.equiv w v = true ∧
        w.wfRecord = true ∧ ConformantProp w fp.2 = true := by
    intro fp hfp hskip
    cases hlk : lookupVal data fp.1 with
    | none =>
      exfalso
      rw [skipsField, missingRequired, hlk] at hskip
      simp only [Bool.and_eq_false_iff, Bool.not_eq_false'] at hskip
      rcases hskip with hskip | hskip
      · obtain ⟨v, hv, _⟩ := hreq fp.1 (List.mem_of_elem_eq_true hskip)
        rw [hlk] at hv; exact Option.noConfusion hv
      · exact Bool.noConfusion hskip
    | some v =>
      have hcp : ConformantProp v fp.2 = true := hprop fp hfp v hlk
      have hvwf : v.wfRecord = true := hvalsWF (fp.1, v) (mem_of_lookupVal_eq_some hlk)
      obtain ⟨w, hw, he, hwwf, hwc⟩ := hpt fp hfp v hlk hvwf hcp
      exact ⟨v, w, rfl, hw, he, hwwf, hwc⟩
  have hskipOfNonNull : ∀ f v, lookupVal data f = some v → v ≠ .null →
      skipsField data required f = false := by
    intro f v hlk hnn
    rw [skipsField, missingRequired, hlk]
    cases v <;> simp_all
  have hkeyg : ∀ (fp : String × SchemaProp) (r : String × Value),
      (if skipsField data required fp.1 then none
      else match validateProperty (lookupVal data fp.1) fp.2 fp.1 with
        | .error _ => none
        | .ok w => some (fp.1, w)) = some r → r.1 = fp.1 := by
    intro fp r hg
    by_cases hs : skipsField data required fp.1
    · rw [if_pos hs] at hg; exact Option.noConfusion hg
    · rw [if_neg hs] at hg
      cases hvp : validateProperty (lookupVal data fp.1) fp.2 fp.1 with
      | error e => rw [hvp] at hg; exact Option.noConfusion hg
      | ok w =>
        rw [hvp] at hg
        cases hg
        rfl
  have hmemvd : ∀ kv, kv ∈ (props.filterMap fun fp : String × SchemaProp =>
      if skipsField data required fp.1 then none
      else match validateProperty (lookupVal data fp.1) fp.2 fp.1 with
        | .error _ => none
        | .ok w => some (fp.1, w)) →
      ∃ fp ∈ props, ∃ v, kv.1 = fp.1 ∧ lookupVal data fp.1 = some v ∧
        validateProperty (some v) fp.2 fp.1 = .ok kv.2 ∧
        Value.equiv kv.2 v = true ∧ kv.2.wfRecord = true ∧
        ConformantProp kv.2 fp.2 = true := by
    intro kv hkv
    obtain ⟨fp, hfp, hg⟩ := List.mem_filterMap.mp hkv
    by_cases hs : skipsField data required fp.1
    · rw [if_pos hs] at hg; exact Option.noConfusion hg
    · rw [if_neg hs] at hg
      obtain ⟨v, w, hlk, hw, he, hwwf, hwc⟩ := hentry fp hfp (by simpa using hs)
      rw [hlk, hw] at hg
      cases hg
      exact ⟨fp, hfp, v, rfl, hlk, hw, he, hwwf, hwc⟩
  refine ⟨props.filterMap fun fp =>
    if skipsField data required fp.1 then none
    else match validateProperty (lookupVal data fp.1) fp.2 fp.1 with
      | .error _ => none
      | .ok w => some (fp.1, w), ?_, ?_, ?_, ?_⟩
  · rw [validateOpenAPICore]
    rw [validateProps_eq]
    have h1 : (required.filter fun f => missingRequired data f) = [] := by
      rw [List.filter_eq_nil]
      intro f hf
      simp [hmiss f hf]
    have h2 : (props.filterMap fun fp =>
        if skipsField data required fp.1 then none
        else match validateProperty (lookupVal data fp.1) fp.2 fp.1 with
          | .error e => some e
          | .ok _ => none) = [] := by
      rw [List.filterMap_eq_nil]
      intro fp hfp
      by_cases hs : skipsField data required fp.1
      · simp [hs]
      · obtain ⟨v, w, hlk, hw, _⟩ := hentry fp hfp (by simpa using hs)
        rw [if_neg hs, hlk, hw]
    have h3 : ((data.map Prod.fst).filter fun k =>
        ¬ (props.map Prod.fst).contains k) = [] := by
      rw [List.filter_eq_nil]
      intro k hk
      obtain ⟨kv, hkv, hke⟩ := List.mem_map.mp hk
      subst hke
      have hc : (props.map Prod.fst).contains kv.1 = true :=
        List.elem_eq_true_of_mem (hundecl kv hkv)
      simp only [hc, decide_not, Bool.not_eq_true', decide_eq_false_iff_not,
        Bool.not_eq_true]
      exact not_not_intro trivial
    rw [h1, h2, h3]
    simp only [List.map_nil, List.nil_append, List.append_nil]
  · rw [equiv_obj_iff]
    constructor
    · intro kv hkv
      obtain ⟨fp, hfp, v, hke, hlk, hw, he, _, _⟩ := hmemvd kv hkv
      rw [hke]
      exact ⟨v, hlk, he⟩
    · intro kv hkv
      have hk1 : kv.1 ∈ props.map Prod.fst := hundecl kv hkv
      obtain ⟨fp, hfp, hfe⟩ := List.mem_map.mp hk1
      have hlk : lookupVal data fp.1 = some kv.2 := by
        rw [hfe]
        obtain ⟨k1, v1⟩ := kv
        exact lookupVal_eq_some_of_nodup hndData hkv
      have hs : skipsField data required fp.1 = false := by
        rw [hfe]
        refine hskipOfNonNull kv.1 kv.2 (by rw [← hfe]; exact hlk) ?_
        have hcp := hprop fp hfp kv.2 hlk
        exact ConformantProp_ne_null hcp
      obtain ⟨v, w, hlk2, hw, _⟩ := hentry fp hfp hs
      have hin : (fp.1, w) ∈ props.filterMap fun fp =>
          if skipsField data required fp.1 then none
          else match validateProperty (lookupVal data fp.1) fp.2 fp.1 with
            | .error _ => none
            | .ok w => some (fp.1, w) := by
        refine List.mem_filterMap.mpr ⟨fp, hfp, ?_⟩
        rw [if_neg (by simp [hs]), hlk2, hw]
      rw [← hfe]
      exact lookupVal_isSome_of_mem hin
  · refine wfRecord_obj.mpr ⟨?_, ?_⟩
    · exact hndProps.sublist (filterMap_keys_sublist _ hkeyg props)
    · intro kv hkv
      obtain ⟨fp, hfp, v, _, _, _, _, hwwf, _⟩ := hmemvd kv hkv
      exact hwwf
  · refine ConformantData_intro ?_ ?_ ?_
    · intro f hf
      obtain ⟨v, hv, hnn⟩ := hreq f hf
      have hdm : (f, v) ∈ data := mem_of_lookupVal_eq_some hv
      have hfk : f ∈ props.map Prod.fst := hundecl (f, v) hdm
      obtain ⟨fp, hfp, hfe⟩ := List.mem_map.mp hfk
      have hs : skipsField data required fp.1 = false := by
        rw [hfe]; exact hskipOfNonNull f v hv hnn
      obtain ⟨v2, w, hlk, hw, _, _, _⟩ := hentry fp hfp hs
      refine ⟨w, ?_, validateProperty_ok_ne_null _ _ _ w hw⟩
      rw [← hfe]
      rw [lookupVal_filterMap _ hkeyg hndProps hfp]
      rw [if_neg (by simp [hs]), hlk, hw]
      rfl
    · intro fp hfp w hwvd
      rw [lookupVal_filterMap _ hkeyg hndProps hfp] at hwvd
      by_cases hs : skipsField data required fp.1
      · rw [if_pos hs] at hwvd
        exact Option.noConfusion hwvd
      · obtain ⟨v, w2, hlk, hw, _, _, hwc⟩ := hentry fp hfp (by simpa using hs)
        rw [if_neg hs, hlk, hw] at hwvd
        have hww : w2 = w := by simpa using hwvd
        rw [← hww]
        exact hwc
    · intro kv hkv
      obtain ⟨fp, hfp, v, hke, _⟩ := hmemvd kv hkv
      rw [hke]
      exact List.mem_map_of_mem Prod.fst hfp

/-- The scalar conformance checks do not distinguish two object values. -/
theorem ConformantScalar_obj_invariant {a b : List (String × Value)}
    {p : SchemaProp} (h : ConformantScalar (.obj a) p = true) :
    ConformantScalar (.obj b) p = true := by
  obtain ⟨ty, en, mi, ma, minL, maxL, props, req, items, dsc⟩ := p
  rw [ConformantScalar.eq_def] at h ⊢
  dsimp only at h ⊢
  cases en <;>
    simp only [typeMatches, jsTypeof, Value.isArr, Value.isObj,
      enumIncludes_obj, stringBoundsError, numBoundsError] at h ⊢ <;>
    simp_all

/-- The scalar conformance checks do not distinguish two array values. -/
theorem ConformantScalar_arr_invariant {xs ys : List Value}
    {p : SchemaProp} (h : ConformantScalar (.arr xs) p = true) :
    ConformantScalar (.arr ys) p = true := by
  obtain ⟨ty, en, mi, ma, minL, maxL, props, req, items, dsc⟩ := p
  rw [ConformantScalar.eq_def] at h ⊢
  dsimp only at h ⊢
  cases en <;>
    simp only [typeMatches, jsTypeof, Value.isArr, Value.isObj,
      enumIncludes_arr, stringBoundsError, numBoundsError] at h ⊢ <;>
    simp_all

/-- Builds ConformantProp from its three component facts. -/
theorem ConformantProp_intro {v : Value} {ty : String} {en : Option (List EnumLit)}
    {mi ma : Option Int} {minL maxL : Option Nat}
    {props : Option (List (String × SchemaProp))} {req : Option (List String)}
    {items : Option SchemaProp} {dsc : Option String}
    (hsc : ConformantScalar v (.mk ty en mi ma minL maxL props req items dsc) = true)
    (hobj : ∀ nprops fields, props = some nprops → v = .obj fields → ty = "object" →
      ConformantData fields nprops (req.getD []) = true)
    (harr : ∀ it xs, items = some it → v = .arr xs → ty = "array" →
      ∀ x ∈ xs, ConformantProp x it = true) :
    ConformantProp v (.mk ty en mi ma minL maxL props req items dsc) = true := by
  rw [ConformantProp.eq_def]
  dsimp only
  simp only [Bool.and_eq_true]
  refine ⟨⟨hsc, ?_⟩, ?_⟩
  · cases v <;> cases props <;> try rfl
    rename_i fields nprops
    dsimp only
    by_cases hty : ty = "object"
    · rw [if_pos hty]
      exact hobj nprops fields rfl rfl hty
    · rw [if_neg hty]
  · cases v <;> cases items <;> try rfl
    rename_i xs it
    dsimp only
    by_cases hty : ty = "array"
    · rw [if_pos hty]
      simp only [List.all_eq_true, List.mem_attach, true_implies, Subtype.forall]
      intro x hx
      exact harr it xs rfl rfl hty x hx
    · rw [if_neg hty]

/-- Splits schema-property well-formedness into its nested-object and
items components. -/
theorem SchemaPropWf_parts {ty : String} {en : Option (List EnumLit)}
    {mi ma : Option Int} {minL maxL : Option Nat}
    {props : Option (List (String × SchemaProp))} {req : Option (List String)}
    {items : Option SchemaProp} {dsc : Option String}
    (h : SchemaProp.wf (.mk ty en mi ma minL maxL props req items dsc) = true) :
    (∀ nprops, props = some nprops → (nprops.map Prod.fst).Nodup ∧
      ∀ q ∈ nprops, SchemaProp.wf q.2 = true) ∧
    (∀ it, items = some it → SchemaProp.wf it = true) := by
  rw [SchemaProp.wf.eq_def] at h
  dsimp only at h
  simp only [Bool.and_eq_true] at h
  obtain ⟨h1, h2⟩ := h
  constructor
  · intro nprops hp
    subst hp
    simp only [decide_eq_true_eq, Bool.and_eq_true, List.all_eq_true,
      List.mem_attach, true_implies, Subtype.forall] at h1
    exact ⟨h1.1, fun q hq => h1.2 q hq⟩
  · intro it hp
    subst hp
    exact h2

/-- The per-item loop succeeds on pointwise-conformant items; the validated
items are pointwise deep-equal, well-formed, and conformant. -/
theorem conformant_items (it : SchemaProp) (path : String) :
    ∀ (xs : List Value),
    (∀ x ∈ xs, ∀ q, x.wfRecord = true → ConformantProp x it = true →
      ∃ w, validateProperty (some x) it q = .ok w ∧ Value.equiv w x = true ∧
        w.wfRecord = true ∧ ConformantProp w it = true) →
    (∀ x ∈ xs, x.wfRecord = true) → (∀ x ∈ xs, ConformantProp x it = true) →
    ∀ i, ∃ ws, validateItems it path i xs = ([], ws) ∧
      ws.length = xs.length ∧
      (∀ pr ∈ ws.zip xs, Value.equiv pr.1 pr.2 = true) ∧
      (∀ w ∈ ws, w.wfRecord = true ∧ ConformantProp w it = true) := by
  intro xs
  induction xs with
  | nil =>
    intro _ _ _ i
    refine ⟨[], by rw [validateItems], rfl, by simp, by simp⟩
  | cons x rest ihx =>
    intro hpt hwf hcp i
    obtain ⟨w, hw, he, hwWf, hwCp⟩ := hpt x (List.mem_cons_self x rest)
      (path ++ "[" ++ toString i ++ "]")
      (hwf x (List.mem_cons_self x rest)) (hcp x (List.mem_cons_self x rest))
    obtain ⟨ws, hws, hlen, hzip, hall⟩ := ihx
      (fun y hy => hpt y (List.mem_cons_of_mem x hy))
      (fun y hy => hwf y (List.mem_cons_of_mem x hy))
      (fun y hy => hcp y (List.mem_cons_of_mem x hy)) (i + 1)
    refine ⟨w :: ws, ?_, by simp [hlen], ?_, ?_⟩
    · rw [validateItems]
      rw [hw, hws]
    · intro pr hpr
      rw [List.zip_cons_cons] at hpr
      rcases List.mem_cons.mp hpr with hpr | hpr
      · rw [hpr]
        exact he
      · exact hzip pr hpr
    · intro w2 hw2
      rcases List.mem_cons.mp hw2 with hw2 | hw2
      · rw [hw2]
        exact ⟨hwWf, hwCp⟩
      · exact hall w2 hw2


set_option maxHeartbeats 1600000 in
/-- Conformant well-formed values validate successfully at every field path;
the sanitized value is deep-equal to the input, well-formed, and conformant
again (supporting idempotent re-validation). -/
theorem conformant_validateProperty : ∀ (n : Nat) (v : Value) (p : SchemaProp)
    (path : String), sizeOf v < n → v.wfRecord = true → p.wf = true →
    ConformantProp v p = true →
    ∃ w, validateProperty (some v) p path = .ok w ∧ Value.equiv w v = true ∧
      w.wfRecord = true ∧ ConformantProp w p = true := by
  intro n
  induction n with
  | zero =>
    intro v p path h
    omega
  | succ n ih =>
    intro v p path hsz hwf hpwf hconf
    obtain ⟨ty, en, mi, ma, minL, maxL, props, req, items, dsc⟩ := p
    obtain ⟨hsc, hobjC, harrC⟩ := ConformantProp_parts hconf
    have hchk := checks_none_of_conformant path hsc
    obtain ⟨hwfp, hwfi⟩ := SchemaPropWf_parts hpwf
    cases v with
    | null => exact absurd rfl (ConformantProp_ne_null hconf)
    | str s =>
      refine ⟨.str s, ?_, equiv_refl_wf _ hwf, hwf, hconf⟩
      simp only [validateProperty]
      rw [hchk]
    | num m =>
      refine ⟨.num m, ?_, equiv_refl_wf _ hwf, hwf, hconf⟩
      simp only [validateProperty]
      rw [hchk]
    | bool b =>
      refine ⟨.bool b, ?_, equiv_refl_wf _ hwf, hwf, hconf⟩
      simp only [validateProperty]
      rw [hchk]
    | obj fields =>
      cases props with
      | none =>
        refine ⟨.obj fields, ?_, equiv_refl_wf _ hwf, hwf, hconf⟩
        simp only [validateProperty]
        rw [hchk]
      | some nprops =>
        by_cases hty : ty = "object"
        · subst hty
          have hcd : ConformantData fields nprops (req.getD []) = true :=
            hobjC nprops fields rfl rfl rfl
          obtain ⟨hndn, hwfn⟩ := hwfp nprops rfl
          have hpt : ∀ fp ∈ nprops, ∀ v2, lookupVal fields fp.1 = some v2 →
              v2.wfRecord = true → ConformantProp v2 fp.2 = true →
              ∃ w, validateProperty (some v2) fp.2 fp.1 = .ok w ∧
                Value.equiv w v2 = true ∧ w.wfRecord = true ∧
                ConformantProp w fp.2 = true := by
            intro fp hfp v2 hlk hv2wf hv2cp
            have hm := mem_of_lookupVal_eq_some hlk
            have hlt : sizeOf v2 < sizeOf (Value.obj fields) := by
              have h1 := List.sizeOf_lt_of_mem hm
              simp only [Value.obj.sizeOf_spec, Prod.mk.sizeOf_spec] at h1 ⊢
              omega
            exact ih v2 fp.2 fp.1 (by omega) hv2wf (hwfn fp hfp) hv2cp
          obtain ⟨vd, hcore, hequiv, hvdwf, hvdconf⟩ :=
            conformant_core fields nprops (req.getD []) hwf hndn hcd hpt
          refine ⟨.obj vd, ?_, hequiv, hvdwf, ?_⟩
          · simp only [validateProperty]
            rw [hchk]
            simp [hcore]
          · refine ConformantProp_intro (ConformantScalar_obj_invariant hsc) ?_ ?_
            · intro nprops2 fields2 hp2 hv2 _
              cases hp2
              cases hv2
              exact hvdconf
            · intro it2 xs2 _ hv2 _
              exact absurd hv2 (by simp)
        · refine ⟨.obj fields, ?_, equiv_refl_wf _ hwf, hwf, hconf⟩
          simp only [validateProperty]
          rw [hchk]
          simp [hty]
    | arr xs =>
      cases items with
      | none =>
        refine ⟨.arr xs, ?_, equiv_refl_wf _ hwf, hwf, hconf⟩
        simp only [validateProperty]
        rw [hchk]
      | some it =>
        by_cases hty : ty = "array"
        · subst hty
          have hxs : ∀ x ∈ xs, ConformantProp x it = true := harrC it xs rfl rfl rfl
          have hxw : ∀ x ∈ xs, x.wfRecord = true := wfRecord_arr.mp hwf
          have hitwf : it.wf = true := hwfi it rfl
          have hptx : ∀ x ∈ xs, ∀ q, x.wfRecord = true → ConformantProp x it = true →
              ∃ w, validateProperty (some x) it q = .ok w ∧ Value.equiv w x = true ∧
                w.wfRecord = true ∧ ConformantProp w it = true := by
            intro x hx q hxwf hxcp
            have hlt : sizeOf x < sizeOf (Value.arr xs) := by
              have h1 := List.sizeOf_lt_of_mem hx
              simp only [Value.arr.sizeOf_spec]
              omega
            exact ih x it q (by omega) hxwf hitwf hxcp
          obtain ⟨ws, hitems, hlen, hzip, hall⟩ :=
            conformant_items it path xs hptx hxw hxs 0
          refine ⟨.arr ws, ?_, equiv_arr_iff.mpr ⟨hlen, hzip⟩, ?_, ?_⟩
          · simp only [validateProperty]
            rw [hchk]
            simp [hitems]
          · exact wfRecord_arr.mpr fun w hw => (hall w hw).1
          · refine ConformantProp_intro (ConformantScalar_arr_invariant hsc) ?_ ?_
            · intro nprops2 fields2 _ hv2 _
              exact absurd hv2 (by simp)
            · intro it2 xs2 hit2 hv2 _
              cases hit2
              cases hv2
              intro x hx
              exact (hall x hx).2
        · refine ⟨.arr xs, ?_, equiv_refl_wf _ hwf, hwf, hconf⟩
          simp only [validateProperty]
          rw [hchk]
          simp [hty]


/-- Record-level assembly: conformant well-formed data against a well-formed
property list validates with no errors; the sanitized record is deep-equal,
well-formed, and conformant again. -/
theorem conformant_record (data : List (String × Value))
    (props : List (String × SchemaProp)) (required : List String)
    (hwf : recordWF data = true) (hpw : propsWF props = true)
    (hconf : ConformantData data props required = true) :
    ∃ vd, validateOpenAPICore data props required = ([], vd) ∧
      Value.equiv (.obj vd) (.obj data) = true ∧ recordWF vd = true ∧
      ConformantData vd props required = true := by
  rw [recordWF] at hwf
  rw [propsWF] at hpw
  simp only [Bool.and_eq_true, decide_eq_true_eq, List.all_eq_true] at hpw
  obtain ⟨hnd, hall⟩ := hpw
  have hpt : ∀ fp ∈ props, ∀ v, lookupVal data fp.1 = some v → v.wfRecord = true →
      ConformantProp v fp.2 = true →
      ∃ w, validateProperty (some v) fp.2 fp.1 = .ok w ∧ Value.equiv w v = true ∧
        w.wfRecord = true ∧ ConformantProp w fp.2 = true := by
    intro fp hfp v hlk hvwf hvcp
    obtain ⟨w, hw, he, hwwf, hwcp⟩ := conformant_validateProperty (sizeOf v + 1)
      v fp.2 fp.1 (by omega) hvwf (hall fp hfp) hvcp
    exact ⟨w, hw, he, hwwf, hwcp⟩
  obtain ⟨vd, h1, h2, h3, h4⟩ := conformant_core data props required hwf hnd hconf hpt
  exact ⟨vd, h1, h2, h3, h4⟩


theorem validateAgainstOpenAPISchema_errors_getD (data : List (String × Value))
    (schema : OpenAPISchema) :
    (validateAgainstOpenAPISchema data schema).errors.getD [] =
      (validateOpenAPICore data schema.properties (schema.required.getD [])).1 := by
  rw [validateAgainstOpenAPISchema]
  by_cases h : (validateOpenAPICore data schema.properties (schema.required.getD [])).1.isEmpty
  · simp only [h, if_true]
    simp only [List.isEmpty_iff] at h
    simp [h]
  · simp [h]

theorem validateOpenAPICore_fst (data : List (String × Value))
    (props : List (String × SchemaProp)) (required : List String) :
    (validateOpenAPICore data props required).1 =
      ((required.filter fun f => missingRequired data f).map
        (fun f => "Missing required field: " ++ f)) ++
      (validateProps data required props).1 ++
      (((data.map Prod.fst).filter fun k =>
        ¬ (props.map Prod.fst).contains k).map fun k => "Unexpected field: " ++ k) := by
  rw [validateOpenAPICore]

/-- C3: for every data record and schema, the error list returned by the
validator is the union of all field errors: it contains an entry for every
missing required field, the error of every declared field that fails its
property validation (when not skipped as optional-and-absent), and an entry
for every undeclared top-level field — and validation succeeds exactly when
that list is empty, so it never stops at the first error. -/
theorem validateAgainstOpenAPISchema_isValid_iff (data : List (String × Value))
    (schema : OpenAPISchema) :
    (validateAgainstOpenAPISchema data schema).isValid = true ↔
      (validateAgainstOpenAPISchema data schema).errors.getD [] = [] := by
  rw [validateAgainstOpenAPISchema_errors_getD]
  rw [validateAgainstOpenAPISchema]
  simp [List.isEmpty_iff]

theorem validation_errors_are_union (data : List (String × Value))
    (schema : OpenAPISchema) :
    ((validateAgainstOpenAPISchema data schema).isValid = true ↔
      (validateAgainstOpenAPISchema data schema).errors.getD [] = []) ∧
    (∀ f ∈ schema.required.getD [], missingRequired data f = true →
      ("Missing required field: " ++ f) ∈
        (validateAgainstOpenAPISchema data schema).errors.getD []) ∧
    (∀ fp ∈ schema.properties, ∀ e,
      skipsField data (schema.required.getD []) fp.1 = false →
      validateProperty (lookupVal data fp.1) fp.2 fp.1 = .error e →
      e ∈ (validateAgainstOpenAPISchema data schema).errors.getD []) ∧
    (∀ kv ∈ data, ((schema.properties.map Prod.fst).contains kv.1) = false →
      ("Unexpected field: " ++ kv.1) ∈
        (validateAgainstOpenAPISchema data schema).errors.getD []) := by
  refine ⟨validateAgainstOpenAPISchema_isValid_iff data schema, ?_, ?_, ?_⟩
  · intro f hf hmiss
    rw [validateAgainstOpenAPISchema_errors_getD, validateOpenAPICore_fst]
    refine List.mem_append_left _ (List.mem_append_left _ ?_)
    exact List.mem_map_of_mem _ (List.mem_filter.mpr ⟨hf, hmiss⟩)
  · intro fp hfp e hskip hvp
    rw [validateAgainstOpenAPISchema_errors_getD, validateOpenAPICore_fst]
    refine List.mem_append_left _ (List.mem_append_right _ ?_)
    rw [validateProps_eq]
    exact List.mem_filterMap.mpr ⟨fp, hfp, by simp [hskip, hvp]⟩
  · intro kv hkv hextra
    rw [validateAgainstOpenAPISchema_errors_getD, validateOpenAPICore_fst]
    refine List.mem_append_right _ ?_
    refine List.mem_map_of_mem _ (List.mem_filter.mpr ⟨List.mem_map_of_mem _ hkv, ?_⟩)
    simp only [hextra]
    decide

/-- Concrete record and schema for the validation-union witness: required
field `a` missing, declared field `b` mistyped, undeclared field `c`. -/
def c3data : List (String × Value) := [("b", .num 1), ("c", .str "zz")]

def c3schema : OpenAPISchema :=
  ⟨[("a", SchemaProp.ofType "number"), ("b", SchemaProp.ofType "string")],
    some ["a", "b"]⟩

theorem validation_errors_are_union_witness :
    ("Missing required field: a") ∈
      (validateAgainstOpenAPISchema c3data c3schema).errors.getD [] ∧
    ("Field 'b' must be a string, got number") ∈
      (validateAgainstOpenAPISchema c3data c3schema).errors.getD [] ∧
    ("Unexpected field: c") ∈
      (validateAgainstOpenAPISchema c3data c3schema).errors.getD [] := by
  have h := validation_errors_are_union c3data c3schema
  refine ⟨h.2.1 "a" (by simp [c3schema]) (by rfl), ?_, ?_⟩
  · refine h.2.2.1 ("b", SchemaProp.ofType "string") ?_
      "Field 'b' must be a string, got number" (by rfl) ?_
    · exact List.mem_cons_of_mem _ (List.mem_cons_self _ _)
    · show validateProperty (some (.num 1)) (SchemaProp.ofType "string") "b" =
        .error "Field 'b' must be a string, got number"
      rw [SchemaProp.ofType]
      simp only [validateProperty]
      rfl
  · exact h.2.2.2 ("c", .str "zz") (by simp [c3data]) (by rfl)

/-- C7: for every schema and every well-formed data record that has all
required fields present, every declared field correctly typed, in-enum and
within declared bounds (recursively), and no undeclared fields,
validateAgainstSchema returns isValid = true with sanitized data deep-equal
to the input record, and re-validating that sanitized output against the
same schema again returns isValid = true (idempotent re-validation). -/
theorem validation_roundtrip_idempotent (schema : ParametersSchema)
    (data : List (String × Value))
    (hwf : recordWF data = true)
    (hsw : propsWF (normalizeToOpenAPISchema schema).properties = true)
    (hconf : ConformantData data (normalizeToOpenAPISchema schema).properties
      ((normalizeToOpenAPISchema schema).required.getD []) = true) :
    ∃ vd, validateAgainstSchema data schema = ⟨true, some vd, none⟩ ∧
      Value.equiv (.obj vd) (.obj data) = true ∧
      (validateAgainstSchema vd schema).isValid = true := by
  obtain ⟨vd, h1, h2, h3, h4⟩ := conformant_record data
    (normalizeToOpenAPISchema schema).properties
    ((normalizeToOpenAPISchema schema).required.getD []) hwf hsw hconf
  obtain ⟨vd2, g1, g2, g3, g4⟩ := conformant_record vd
    (normalizeToOpenAPISchema schema).properties
    ((normalizeToOpenAPISchema schema).required.getD []) h3 hsw h4
  refine ⟨vd, ?_, h2, ?_⟩
  · rw [validateAgainstSchema, validateAgainstOpenAPISchema]
    simp [h1]
  · rw [validateAgainstSchema, validateAgainstOpenAPISchema]
    simp [g1]

def c7schema : ParametersSchema :=
  .openapi ⟨[("name", SchemaProp.ofType "string")], some ["name"]⟩

def c7data : List (String × Value) := [("name", .str "bob")]

theorem validation_roundtrip_idempotent_witness :
    ∃ vd, validateAgainstSchema c7data c7schema = ⟨true, some vd, none⟩ ∧
      Value.equiv (.obj vd) (.obj c7data) = true ∧
      (validateAgainstSchema vd c7schema).isValid = true := by
  refine validation_roundtrip_idempotent c7schema c7data ?_ ?_ ?_
  · refine wfRecord_obj.mpr ⟨by simp [c7data], ?_⟩
    intro kv hkv
    simp only [c7data, List.mem_singleton] at hkv
    subst hkv
    simp [Value.wfRecord]
  · simp only [propsWF, c7schema, normalizeToOpenAPISchema, List.all_eq_true,
      Bool.and_eq_true, decide_eq_true_eq]
    refine ⟨by simp, ?_⟩
    intro q hq
    simp only [List.mem_singleton] at hq
    subst hq
    simp [SchemaProp.wf, SchemaProp.ofType]
  · refine ConformantData_intro ?_ ?_ ?_
    · intro f hf
      simp only [c7schema, normalizeToOpenAPISchema, Option.getD_some,
        List.mem_singleton] at hf
      subst hf
      exact ⟨.str "bob", rfl, by simp⟩
    · intro fp hfp v hlk
      simp only [c7schema, normalizeToOpenAPISchema, List.mem_singleton] at hfp
      subst hfp
      have hv : v = .str "bob" := by
        have : lookupVal c7data "name" = some (.str "bob") := rfl
        rw [this] at hlk
        exact (Option.some.injEq _ _ ▸ hlk).symm
      subst hv
      refine ConformantProp_intro ?_ ?_ ?_
      · rfl
      · intro nprops fields hp
        simp [SchemaProp.ofType] at hp
      · intro it xs hp
        simp [SchemaProp.ofType] at hp
    · intro kv hkv
      simp only [c7data, List.mem_singleton] at hkv
      subst hkv
      simp [c7schema, normalizeToOpenAPISchema]


/-- Gateway-call events vs tool-execution events. -/
def isToolExec : AgentEvent → Bool
  | .toolExec _ _ => true
  | .llmCall _ => false

/-- Number of tool-execute invocations recorded in a trace. -/
def execCount (evs : List AgentEvent) : Nat :=
  (evs.filter isToolExec).length

/-- C10: callTools runs every inner call through callTool with the
orchestratorCall (forceExtraction) flag fixed at false; the flag passed to
callTools itself is never forwarded, so the whole outcome is identical for
any two values of it. -/
theorem callTools_ignores_orchestratorCall (env : AgentEnv)
    (toolCalls : List ToolCall) (b1 b2 : Bool) :
    callTools env toolCalls b1 = callTools env toolCalls b2 := by
  induction toolCalls with
  | nil => rfl
  | cons tc rest ih =>
    rw [callTools, callTools]
    cases h : callTool env tc false with
    | mk r ev =>
      cases r with
      | error e => rfl
      | ok v => rw [ih]

/-- C9: on a retry (attempt > 1) in extraction mode with a recorded previous
error, when the regeneration attempt fails, the retry loop is not aborted:
the previously validated arguments are kept and the tool's execute still
runs with them on that attempt. -/
theorem regen_failure_keeps_previous_args (env : AgentEnv) (tool : Tool)
    (toolName context : String) (k attempt : Nat) (args : List (String × Value))
    (err : String) (hatt : attempt > 1)
    (hregen : (regenAttempt env tool context err).1 = none) :
    retryLoop env tool toolName context true (k + 1) attempt args (some err) =
      (match tool.execute args with
       | .ok result =>
         (.ok result, (regenAttempt env tool context err).2 ++ [.toolExec attempt args])
       | .error e =>
         (( retryLoop env tool toolName context true k (attempt + 1) args (some e)).1,
          (regenAttempt env tool context err).2 ++ [.toolExec attempt args] ++
            (retryLoop env tool toolName context true k (attempt + 1) args (some e)).2)) ∧
    .toolExec attempt args ∈
      (retryLoop env tool toolName context true (k + 1) attempt args (some err)).2 := by
  have hpair : regenAttempt env tool context err =
      (none, (regenAttempt env tool context err).2) := by
    have h2 := hregen
    cases hp : regenAttempt env tool context err with
    | mk a b =>
      rw [hp] at h2
      simp only at h2
      rw [h2]
  have hmain : retryLoop env tool toolName context true (k + 1) attempt args (some err) =
      (match tool.execute args with
       | .ok result =>
         (.ok result, (regenAttempt env tool context err).2 ++ [.toolExec attempt args])
       | .error e =>
         (( retryLoop env tool toolName context true k (attempt + 1) args (some e)).1,
          (regenAttempt env tool context err).2 ++ [.toolExec attempt args] ++
            (retryLoop env tool toolName context true k (attempt + 1) args (some e)).2)) := by
    rw [retryLoop]
    rw [if_pos ⟨hatt, rfl, rfl⟩]
    rw [show (some err).getD "" = err from rfl]
    rw [hpair]
  refine ⟨hmain, ?_⟩
  rw [hmain]
  cases tool.execute args <;> simp


def c9env : AgentEnv := ⟨[], 3, fun _ => .error "gateway down"⟩

def c9tool : Tool :=
  { name := "t"
    description := ""
    parametersSchema := .openapi ⟨[], none⟩
    execute := fun _ => .ok (.num 7)
    agentic := true
    validate := true
    systemPrompt := none }

theorem regen_failure_keeps_previous_args_witness :
    .toolExec 2 [("x", Value.num 1)] ∈
      (retryLoop c9env c9tool "t" "ctx" true 1 2 [("x", Value.num 1)]
        (some "prev")).2 :=
  (regen_failure_keeps_previous_args c9env c9tool "t" "ctx" 0 2
    [("x", Value.num 1)] "prev" (by decide) rfl).2


/-- With regeneration disabled the retry loop never consults the gateway:
it is insensitive to the LLM implementation and records no gateway call. -/
theorem retryLoop_no_regen (tools : List Tool) (mr : Nat)
    (llm1 llm2 : StructuredRequest → Except String LLMResponse)
    (tool : Tool) (toolName context : String) :
    ∀ (k attempt : Nat) (finalArgs : List (String × Value)) (lastError : Option String),
      retryLoop ⟨tools, mr, llm1⟩ tool toolName context false k attempt finalArgs lastError =
        retryLoop ⟨tools, mr, llm2⟩ tool toolName context false k attempt finalArgs lastError ∧
      ∀ req, AgentEvent.llmCall req ∉
        (retryLoop ⟨tools, mr, llm1⟩ tool toolName context false k attempt
          finalArgs lastError).2 := by
  intro k
  induction k with
  | zero =>
    intro attempt finalArgs lastError
    refine ⟨rfl, ?_⟩
    intro req h
    rw [retryLoop] at h
    simp at h
  | succ k ih =>
    intro attempt finalArgs lastError
    rw [retryLoop, retryLoop]
    rw [if_neg (fun hc => by simp at hc), if_neg (fun hc => by simp at hc)]
    cases hex : tool.execute finalArgs with
    | ok result =>
      refine ⟨rfl, ?_⟩
      intro req h
      simp at h
    | error e =>
      obtain ⟨ih1, ih2⟩ := ih (attempt + 1) finalArgs (some e)
      dsimp only
      refine ⟨?_, ?_⟩
      · rw [ih1]
      · intro req h
        simp only [List.nil_append, List.mem_append, List.mem_singleton] at h
        rcases h with h | h
        · exact AgentEvent.noConfusion h
        · exact ih2 req h


/-- callTool in the direct-arguments case (registered tool, non-empty
arguments, not forced into extraction): validate the given arguments and run
the retry loop on them with regeneration off. -/
theorem callTool_direct (env : AgentEnv) (toolCall : ToolCall) (tool : Tool)
    (hfind : env.tools.find? (fun t => t.name = toolCall.tool) = some tool)
    (hagentic : tool.agentic = false)
    (hargs : (toolCall.arguments.getD []).length > 0) :
    callTool env toolCall false =
      (if !(validateAgainstSchema (toolCall.arguments.getD [])
            tool.parametersSchema).isValid then
         (.error ("Tool call validation failed for '" ++ toolCall.tool ++ "': " ++
           joinErrorsOrUnknown (validateAgainstSchema (toolCall.arguments.getD [])
             tool.parametersSchema).errors), [])
       else
         ((retryLoop env tool toolCall.tool (toolCall.context.getD "")
           false env.maxRetries 1
           ((validateAgainstSchema (toolCall.arguments.getD [])
             tool.parametersSchema).data.getD (toolCall.arguments.getD [])) none).1,
          (retryLoop env tool toolCall.tool (toolCall.context.getD "")
           false env.maxRetries 1
           ((validateAgainstSchema (toolCall.arguments.getD [])
             tool.parametersSchema).data.getD (toolCall.arguments.getD [])) none).2)) := by
  have hA : decide ((toolCall.arguments.getD []).length > 0) = true := by
    simpa using hargs
  rw [callTool]
  dsimp only
  rw [hfind]
  simp [hA, hagentic]


/-- C8: for a registered non-agentic tool called with non-empty explicit
arguments and forceExtraction (orchestratorCall) = false, callTool never
invokes the LLM gateway: its outcome is identical under any two gateway
implementations, and its event trace records no gateway call. -/
theorem direct_call_no_gateway (tools : List Tool) (mr : Nat)
    (llm1 llm2 : StructuredRequest → Except String LLMResponse)
    (toolCall : ToolCall) (tool : Tool)
    (hfind : tools.find? (fun t => t.name = toolCall.tool) = some tool)
    (hagentic : tool.agentic = false)
    (hargs : (toolCall.arguments.getD []).length > 0) :
    callTool ⟨tools, mr, llm1⟩ toolCall false =
      callTool ⟨tools, mr, llm2⟩ toolCall false ∧
    ∀ req, AgentEvent.llmCall req ∉ (callTool ⟨tools, mr, llm1⟩ toolCall false).2 := by
  rw [callTool_direct ⟨tools, mr, llm1⟩ toolCall tool hfind hagentic hargs,
      callTool_direct ⟨tools, mr, llm2⟩ toolCall tool hfind hagentic hargs]
  dsimp only
  obtain ⟨hl1, hl2⟩ := retryLoop_no_regen tools mr llm1 llm2 tool toolCall.tool
    (toolCall.context.getD "") mr 1
    ((validateAgainstSchema (toolCall.arguments.getD []) tool.parametersSchema).data.getD
      (toolCall.arguments.getD [])) none
  by_cases hv : (validateAgainstSchema (toolCall.arguments.getD [])
      tool.parametersSchema).isValid
  · rw [if_neg (by simp [hv]), if_neg (by simp [hv])]
    refine ⟨?_, ?_⟩
    · rw [hl1]
    · intro req h
      exact hl2 req h
  · rw [if_pos (by simp [hv]), if_pos (by simp [hv])]
    refine ⟨rfl, ?_⟩
    intro req h
    simp at h


def c8tool : Tool :=
  { name := "w"
    description := ""
    parametersSchema := .openapi ⟨[], none⟩
    execute := fun _ => .ok .null
    agentic := false
    validate := true
    systemPrompt := none }

def c8call : ToolCall := ⟨"w", some [("a", Value.num 0)], none⟩

theorem direct_call_no_gateway_witness :
    callTool ⟨[c8tool], 3, fun _ => .error "down"⟩ c8call false =
      callTool ⟨[c8tool], 3, fun _ => .ok ⟨true, some [], none⟩⟩ c8call false ∧
    ∀ req, AgentEvent.llmCall req ∉
      (callTool ⟨[c8tool], 3, fun _ => .error "down"⟩ c8call false).2 :=
  direct_call_no_gateway [c8tool] 3 (fun _ => .error "down")
    (fun _ => .ok ⟨true, some [], none⟩) c8call c8tool rfl rfl (by decide)


/-- A regeneration gateway round-trip records exactly its gateway call. -/
theorem regenerate_events (llm : StructuredRequest → Except String LLMResponse)
    (tool : Tool) (c e : String) :
    (regenerateStructuredDataWithError llm tool c e).2 =
      [.llmCall (regenerationRequest tool c e)] := by
  rw [regenerateStructuredDataWithError]
  dsimp only
  split <;> rfl

/-- A regeneration attempt records exactly one gateway call and no tool
execution. -/
theorem regenAttempt_events (env : AgentEnv) (tool : Tool) (c le : String) :
    (regenAttempt env tool c le).2 = [.llmCall (regenerationRequest tool c le)] := by
  rw [regenAttempt]
  split
  · rename_i a ev heq
    have h2 := congrArg Prod.snd heq
    simp only at h2
    rw [← h2, regenerate_events]
  · rename_i args ev heq
    have h2 := congrArg Prod.snd heq
    simp only at h2
    dsimp only
    split <;> (rw [← h2, regenerate_events])

/-- On a tool whose execute always fails, the retry loop performs exactly
one execution per remaining attempt and ends with the exhaustion error. -/
theorem retryLoop_allFail (env : AgentEnv) (tool : Tool)
    (toolName context : String) (shouldRegen : Bool)
    (hfail : ∀ args, ∃ e, tool.execute args = .error e) :
    ∀ (k attempt : Nat) (finalArgs : List (String × Value)) (lastError : Option String),
      execCount (retryLoop env tool toolName context shouldRegen k attempt
        finalArgs lastError).2 = k ∧
      (k = 0 → (retryLoop env tool toolName context shouldRegen k attempt
        finalArgs lastError).1 =
        .error (retryFailureMsg toolName env.maxRetries lastError)) ∧
      (0 < k → ∃ e, (retryLoop env tool toolName context shouldRegen k attempt
        finalArgs lastError).1 =
        .error (retryFailureMsg toolName env.maxRetries (some e))) := by
  intro k
  induction k with
  | zero =>
    intro attempt finalArgs lastError
    exact ⟨rfl, fun _ => rfl, fun h => absurd h (by omega)⟩
  | succ k ih =>
    intro attempt finalArgs lastError
    rw [retryLoop]
    by_cases hc : attempt > 1 ∧ shouldRegen = true ∧ lastError.isSome
    · rw [if_pos hc]
      cases hra : regenAttempt env tool context (lastError.getD "") with
      | mk o ev =>
        have hev : ev = [.llmCall (regenerationRequest tool context
            (lastError.getD ""))] := by
          have h2 := congrArg Prod.snd hra
          simp only at h2
          rw [← h2, regenAttempt_events]
        cases o with
        | some newArgs =>
          dsimp only
          obtain ⟨e, he⟩ := hfail newArgs
          rw [he]
          dsimp only
          obtain ⟨ih1, ih2, ih3⟩ := ih (attempt + 1) newArgs (some e)
          refine ⟨?_, fun h => absurd h (by omega), fun _ => ?_⟩
          · simp [execCount, hev, isToolExec] at ih1 ⊢
            omega
          · rcases Nat.eq_zero_or_pos k with hk | hk
            · exact ⟨e, ih2 hk⟩
            · exact ih3 hk
        | none =>
          dsimp only
          obtain ⟨e, he⟩ := hfail finalArgs
          rw [he]
          dsimp only
          obtain ⟨ih1, ih2, ih3⟩ := ih (attempt + 1) finalArgs (some e)
          refine ⟨?_, fun h => absurd h (by omega), fun _ => ?_⟩
          · simp [execCount, hev, isToolExec] at ih1 ⊢
            omega
          · rcases Nat.eq_zero_or_pos k with hk | hk
            · exact ⟨e, ih2 hk⟩
            · exact ih3 hk
    · rw [if_neg hc]
      dsimp only
      obtain ⟨e, he⟩ := hfail finalArgs
      rw [he]
      dsimp only
      obtain ⟨ih1, ih2, ih3⟩ := ih (attempt + 1) finalArgs (some e)
      refine ⟨?_, fun h => absurd h (by omega), fun _ => ?_⟩
      · simp [execCount, isToolExec] at ih1 ⊢
        omega
      · rcases Nat.eq_zero_or_pos k with hk | hk
        · exact ⟨e, ih2 hk⟩
        · exact ih3 hk


/-- C6: for every registered tool whose execute fails on every invocation
(called directly with valid non-empty arguments), callTool runs execute
exactly maxRetries times and then fails with an error whose message carries
the tool name and the attempt count. -/
theorem retry_exhaustion (env : AgentEnv) (toolCall : ToolCall) (tool : Tool)
    (hfind : env.tools.find? (fun t => t.name = toolCall.tool) = some tool)
    (hagentic : tool.agentic = false)
    (hargs : (toolCall.arguments.getD []).length > 0)
    (hvalid : (validateAgainstSchema (toolCall.arguments.getD [])
      tool.parametersSchema).isValid = true)
    (hfail : ∀ args, ∃ e, tool.execute args = .error e)
    (hmr : 0 < env.maxRetries) :
    ∃ lastErr, (callTool env toolCall false).1 =
        .error ("Tool '" ++ toolCall.tool ++ "' failed after " ++
          toString env.maxRetries ++ " attempts: " ++ lastErr) ∧
      execCount (callTool env toolCall false).2 = env.maxRetries := by
  rw [callTool_direct env toolCall tool hfind hagentic hargs]
  rw [if_neg (by simp [hvalid])]
  obtain ⟨hcount, _, hpos⟩ := retryLoop_allFail env tool toolCall.tool
    (toolCall.context.getD "") false hfail env.maxRetries 1
    ((validateAgainstSchema (toolCall.arguments.getD [])
      tool.parametersSchema).data.getD (toolCall.arguments.getD [])) none
  obtain ⟨e, he⟩ := hpos hmr
  exact ⟨e, he, hcount⟩

def c6tool : Tool :=
  { name := "boom"
    description := ""
    parametersSchema := .openapi ⟨[("x", SchemaProp.ofType "number")], some ["x"]⟩
    execute := fun _ => .error "always fails"
    agentic := false
    validate := true
    systemPrompt := none }

def c6env : AgentEnv := ⟨[c6tool], 3, fun _ => .error "no llm"⟩

def c6call : ToolCall := ⟨"boom", some [("x", Value.num 1)], none⟩

theorem retry_exhaustion_witness :
    ∃ lastErr, (callTool c6env c6call false).1 =
        .error ("Tool '" ++ c6call.tool ++ "' failed after " ++
          toString c6env.maxRetries ++ " attempts: " ++ lastErr) ∧
      execCount (callTool c6env c6call false).2 = c6env.maxRetries := by
  refine retry_exhaustion c6env c6call c6tool rfl rfl (by decide) ?_
    (fun args => ⟨"always fails", rfl⟩) (by decide)
  show (validateAgainstSchema [("x", Value.num 1)]
    (.openapi ⟨[("x", SchemaProp.ofType "number")], some ["x"]⟩)).isValid = true
  have hvp : validateProperty (some (Value.num 1))
      (SchemaProp.mk "number" none none none none none none none none none) "x" =
      .ok (Value.num 1) := by
    simp [validateProperty, validatePropertyChecks, jsTypeof, actualTypeStr,
      stringBoundsError, numBoundsError]
  rw [validateAgainstSchema, validateAgainstOpenAPISchema]
  simp only [normalizeToOpenAPISchema]
  rw [validateOpenAPICore]
  simp only [validateProps, skipsField, missingRequired, lookupVal,
    SchemaProp.ofType]
  simp [hvp]


/-- The distilled-context argument callTool hands to extraction. -/
def extractionContextArg (ctx : Option String) : String :=
  match ctx with
  | some s => if s = "" then "Generate Arguments for the given tool." else s
  | none => "Generate Arguments for the given tool."

/-- An extraction gateway round-trip records exactly its gateway call. -/
theorem generate_events (llm : StructuredRequest → Except String LLMResponse)
    (tool : Tool) (c : String) :
    (generateStructuredDataForTool llm tool c).2 =
      [.llmCall (extractionRequest tool c)] := by
  rw [generateStructuredDataForTool]
  dsimp only
  split <;> rfl

/-- callTool in the direct-arguments case for an agentic tool: identical to
the non-agentic direct path (explicit arguments win). -/
theorem callTool_direct_agentic (env : AgentEnv) (toolCall : ToolCall) (tool : Tool)
    (hfind : env.tools.find? (fun t => t.name = toolCall.tool) = some tool)
    (hagentic : tool.agentic = true)
    (hargs : (toolCall.arguments.getD []).length > 0) :
    callTool env toolCall false =
      (if !(validateAgainstSchema (toolCall.arguments.getD [])
            tool.parametersSchema).isValid then
         (.error ("Tool call validation failed for '" ++ toolCall.tool ++ "': " ++
           joinErrorsOrUnknown (validateAgainstSchema (toolCall.arguments.getD [])
             tool.parametersSchema).errors), [])
       else
         ((retryLoop env tool toolCall.tool (toolCall.context.getD "")
           false env.maxRetries 1
           ((validateAgainstSchema (toolCall.arguments.getD [])
             tool.parametersSchema).data.getD (toolCall.arguments.getD [])) none).1,
          (retryLoop env tool toolCall.tool (toolCall.context.getD "")
           false env.maxRetries 1
           ((validateAgainstSchema (toolCall.arguments.getD [])
             tool.parametersSchema).data.getD (toolCall.arguments.getD [])) none).2)) := by
  have hA : decide ((toolCall.arguments.getD []).length > 0) = true := by
    simpa using hargs
  rw [callTool]
  dsimp only
  rw [hfind]
  simp [hA, hagentic]

/-- callTool under orchestratorCall = true with a registered tool and
non-empty explicit arguments: the arguments are ignored, the effective
arguments always come from gateway extraction over the distilled context. -/
theorem callTool_forced (env : AgentEnv) (toolCall : ToolCall) (tool : Tool)
    (hfind : env.tools.find? (fun t => t.name = toolCall.tool) = some tool)
    (hargs : (toolCall.arguments.getD []).length > 0) :
    callTool env toolCall true =
      (match generateStructuredDataForTool env.llm tool
          (extractionContextArg toolCall.context) with
       | (.error e, ev) =>
         (.error ("Failed to extract parameters for agentic tool '" ++
           toolCall.tool ++ "': " ++ e), ev)
       | (.ok gen, ev) =>
         if !(validateAgainstSchema gen tool.parametersSchema).isValid then
           (.error ("Tool call validation failed for '" ++ toolCall.tool ++ "': " ++
             joinErrorsOrUnknown (validateAgainstSchema gen
               tool.parametersSchema).errors), ev)
         else
           ((retryLoop env tool toolCall.tool (toolCall.context.getD "")
             false env.maxRetries 1
             ((validateAgainstSchema gen tool.parametersSchema).data.getD gen) none).1,
            ev ++ (retryLoop env tool toolCall.tool (toolCall.context.getD "")
             false env.maxRetries 1
             ((validateAgainstSchema gen tool.parametersSchema).data.getD gen)
               none).2)) := by
  have hA : decide ((toolCall.arguments.getD []).length > 0) = true := by
    simpa using hargs
  rw [callTool]
  dsimp only
  rw [hfind]
  simp only [hA, Bool.not_true, Bool.and_false, Bool.false_and, Bool.and_true,
    Bool.or_true, if_true, Bool.false_eq_true, if_false, extractionContextArg]
  cases hg : generateStructuredDataForTool env.llm tool
      (match toolCall.context with
        | some s => if s = "" then "Generate Arguments for the given tool." else s
        | none => "Generate Arguments for the given tool.") with
  | mk r ev => cases r <;> rfl


/-- C2: under forceExtraction (the orchestrator's always-true
orchestratorCall), callTool derives the effective arguments via gateway
extraction and discards the explicit arguments: the outcome is independent
of which non-empty argument list was supplied, and the first recorded event
is the extraction gateway call.  For a direct call (orchestratorCall =
false) with non-empty explicit arguments, the arguments are used directly
even for an agentic tool, and the gateway is never consulted. -/
theorem forced_extraction_semantics (env : AgentEnv) (name : String)
    (ctx : Option String) (tool : Tool)
    (hfind : env.tools.find? (fun t => t.name = name) = some tool) :
    (∀ args1 args2 : List (String × Value), args1.length > 0 → args2.length > 0 →
      callTool env ⟨name, some args1, ctx⟩ true =
        callTool env ⟨name, some args2, ctx⟩ true) ∧
    (∀ args : List (String × Value), args.length > 0 →
      (callTool env ⟨name, some args, ctx⟩ true).2.head? =
        some (.llmCall (extractionRequest tool (extractionContextArg ctx)))) ∧
    (tool.agentic = true → ∀ args : List (String × Value), args.length > 0 →
      ∀ llm2, callTool env ⟨name, some args, ctx⟩ false =
        callTool ⟨env.tools, env.maxRetries, llm2⟩ ⟨name, some args, ctx⟩ false ∧
        ∀ req, AgentEvent.llmCall req ∉
          (callTool env ⟨name, some args, ctx⟩ false).2) := by
  refine ⟨?_, ?_, ?_⟩
  · intro args1 args2 h1 h2
    rw [callTool_forced env ⟨name, some args1, ctx⟩ tool hfind h1,
        callTool_forced env ⟨name, some args2, ctx⟩ tool hfind h2]
  · intro args h
    rw [callTool_forced env ⟨name, some args, ctx⟩ tool hfind h]
    cases hg : generateStructuredDataForTool env.llm tool
        (extractionContextArg ctx) with
    | mk r ev =>
      have hev : ev = [.llmCall (extractionRequest tool
          (extractionContextArg ctx))] := by
        have h2 := congrArg Prod.snd hg
        simp only at h2
        rw [← h2, generate_events]
      cases r with
      | error e =>
        dsimp only
        rw [hev]
        rfl
      | ok gen =>
        dsimp only
        by_cases hv : (validateAgainstSchema gen tool.parametersSchema).isValid
        · rw [if_neg (by simp [hv])]
          rw [hev]
          rfl
        · rw [if_pos (by simp [hv])]
          rw [hev]
          rfl
  · intro hag args h llm2
    have hd1 := callTool_direct_agentic env ⟨name, some args, ctx⟩ tool hfind hag h
    have hd2 := callTool_direct_agentic ⟨env.tools, env.maxRetries, llm2⟩
      ⟨name, some args, ctx⟩ tool hfind hag h
    simp only [Option.getD_some] at hd1 hd2
    rw [hd1, hd2]
    obtain ⟨heq0, hmem0⟩ := retryLoop_no_regen env.tools env.maxRetries env.llm llm2
      tool name (ctx.getD "") env.maxRetries 1
      ((validateAgainstSchema args tool.parametersSchema).data.getD args) none
    have heq : retryLoop env tool name (ctx.getD "") false env.maxRetries 1
        ((validateAgainstSchema args tool.parametersSchema).data.getD args) none =
        retryLoop ⟨env.tools, env.maxRetries, llm2⟩ tool name (ctx.getD "") false
          env.maxRetries 1
          ((validateAgainstSchema args tool.parametersSchema).data.getD args) none :=
      heq0
    have hmem : ∀ req, AgentEvent.llmCall req ∉
        (retryLoop env tool name (ctx.getD "") false env.maxRetries 1
          ((validateAgainstSchema args tool.parametersSchema).data.getD args)
          none).2 :=
      hmem0
    by_cases hv : (validateAgainstSchema args tool.parametersSchema).isValid
    · rw [if_neg (by simp [hv]), if_neg (by simp [hv])]
      refine ⟨?_, ?_⟩
      · rw [heq]
      · intro req hr
        exact hmem req hr
    · rw [if_pos (by simp [hv]), if_pos (by simp [hv])]
      refine ⟨rfl, ?_⟩
      intro req hr
      simp at hr


def c2tool : Tool :=
  { name := "g"
    description := ""
    parametersSchema := .openapi ⟨[], none⟩
    execute := fun _ => .ok .null
    agentic := true
    validate := true
    systemPrompt := none }

def c2env : AgentEnv := ⟨[c2tool], 3, fun _ => .error "x"⟩

theorem forced_extraction_semantics_witness :
    (∀ args1 args2 : List (String × Value), args1.length > 0 → args2.length > 0 →
      callTool c2env ⟨"g", some args1, some "do it"⟩ true =
        callTool c2env ⟨"g", some args2, some "do it"⟩ true) ∧
    (∀ args : List (String × Value), args.length > 0 →
      (callTool c2env ⟨"g", some args, some "do it"⟩ true).2.head? =
        some (.llmCall (extractionRequest c2tool
          (extractionContextArg (some "do it"))))) ∧
    (c2tool.agentic = true → ∀ args : List (String × Value), args.length > 0 →
      ∀ llm2, callTool c2env ⟨"g", some args, some "do it"⟩ false =
        callTool ⟨c2env.tools, c2env.maxRetries, llm2⟩
          ⟨"g", some args, some "do it"⟩ false ∧
        ∀ req, AgentEvent.llmCall req ∉
          (callTool c2env ⟨"g", some args, some "do it"⟩ false).2) :=
  forced_extraction_semantics c2env "g" (some "do it") c2tool rfl


theorem foldl_max_init_le (l : List Int) : ∀ a : Int, a ≤ l.foldl max a := by
  induction l with
  | nil => intro a; exact le_refl a
  | cons x xs ih =>
    intro a
    rw [List.foldl_cons]
    exact le_trans (le_max_left a x) (ih (max a x))

theorem mem_le_foldl_max (l : List Int) : ∀ (a b : Int), b ∈ l → b ≤ l.foldl max a := by
  induction l with
  | nil => intro a b h; simp at h
  | cons x xs ih =>
    intro a b h
    rw [List.foldl_cons]
    rcases List.mem_cons.mp h with h | h
    · subst h
      exact le_trans (le_max_right a b) (foldl_max_init_le xs (max a b))
    · exact ih (max a x) b h

namespace Orchestrator

/-- C5: after a replanning merge, the result is exactly the completed steps
(unchanged, in order) followed by the fresh plan's steps renumbered
consecutively from one past the highest existing step number; every
completed step survives, and a failing executeStep never unmarks or alters
a completed step. -/
theorem replanning_merge_frame (steps : List ExecutionStep)
    (plan : PlanningResponse) :
    (mergeReplanned steps plan =
      steps.filter (·.completed) ++
        ((convertToExecutionSteps plan).enum.map fun p =>
          { p.2 with stepNumber := (steps.map (·.stepNumber)).foldl max 0 +
            (p.1 : Int) + 1 })) ∧
    (∀ s ∈ steps, s.completed = true → s ∈ mergeReplanned steps plan) ∧
    (((mergeReplanned steps plan).drop (steps.filter (·.completed)).length).map
        (·.stepNumber) =
      (List.range (convertToExecutionSteps plan).length).map
        fun i : Nat => (steps.map (·.stepNumber)).foldl max 0 + (i : Int) + 1) ∧
    (∀ (env : OrchestratorEnv) (st : OrchestratorState) (idx : Nat)
        (step : ExecutionStep) (m : String) (st' : OrchestratorState),
      st.steps = steps → steps.get? idx = some step →
      step.completed = false → executeStep env st idx = (.error m, st') →
      ∀ s ∈ steps, s.completed = true → s ∈ st'.steps) := by
  have hkeep : mergeReplanned steps plan =
      steps.filter (·.completed) ++
        ((convertToExecutionSteps plan).enum.map fun p =>
          { p.2 with stepNumber := (steps.map (·.stepNumber)).foldl max 0 +
            (p.1 : Int) + 1 }) := by
    rw [mergeReplanned]
    dsimp only
    congr 1
    rw [List.filter_eq_self]
    intro ns hns
    obtain ⟨p, hp, hpe⟩ := List.mem_map.mp hns
    rw [Bool.not_eq_true', List.any_eq_false]
    intro cs hcs
    have hcs2 : cs ∈ steps := List.mem_of_mem_filter hcs
    have hle : cs.stepNumber ≤ (steps.map (·.stepNumber)).foldl max 0 :=
      mem_le_foldl_max _ 0 cs.stepNumber (List.mem_map_of_mem _ hcs2)
    have hnum : ns.stepNumber = (steps.map (·.stepNumber)).foldl max 0 +
        (p.1 : Int) + 1 := by
      rw [← hpe]
    simp only [decide_eq_true_eq]
    intro hEq
    rw [hEq, hnum] at hle
    omega
  refine ⟨hkeep, ?_, ?_, ?_⟩
  · intro s hs hc
    rw [hkeep]
    refine List.mem_append_left _ ?_
    exact List.mem_filter.mpr ⟨hs, by simp [hc]⟩
  · rw [hkeep]
    rw [List.drop_left]
    rw [List.map_map]
    rw [show ((fun s : ExecutionStep => s.stepNumber) ∘ fun p : Nat × ExecutionStep =>
        { p.2 with stepNumber := (steps.map (·.stepNumber)).foldl max 0 +
          (p.1 : Int) + 1 }) =
        ((fun i : Nat => (steps.map (·.stepNumber)).foldl max 0 + (i : Int) + 1) ∘
          Prod.fst) from rfl]
    rw [← List.map_map, List.enum_map_fst]
  · intro env st idx step m st' hst hget hic hexec s hs hc
    rw [executeStep, hst, hget] at hexec
    dsimp only at hexec
    by_cases hdep : (unsatisfiedDeps steps step).length > 0
    · rw [if_pos hdep] at hexec
      rw [Prod.mk.injEq] at hexec
      obtain ⟨-, h2⟩ := hexec
      rw [← h2, hst]
      exact hs
    · rw [if_neg hdep] at hexec
      split at hexec
      · rw [Prod.mk.injEq] at hexec
        exact absurd hexec.1 (by simp)
      · rw [Prod.mk.injEq] at hexec
        obtain ⟨-, h2⟩ := hexec
        rw [← h2]
        dsimp only
        obtain ⟨j, hj⟩ := List.mem_iff_get?.mp hs
        have hji : j ≠ idx := by
          intro he
          subst he
          rw [hget] at hj
          have : s = step := by
            have h3 := hj
            simp only [Option.some.injEq] at h3
            exact h3.symm
          rw [this, hic] at hc
          exact Bool.noConfusion hc
        refine List.mem_iff_get?.mpr ⟨j, ?_⟩
        rw [List.get?_set_ne _ _ (fun he => hji he.symm)]
        exact hj

def c5step1 : ExecutionStep :=
  { stepNumber := 1
    description := "fetch"
    toolCall := ⟨"t", none, none⟩
    completed := true
    result := some (.num 42) }

def c5step2 : ExecutionStep :=
  { stepNumber := 2
    description := "crunch"
    toolCall := ⟨"t", none, none⟩
    completed := false }

def c5steps : List ExecutionStep := [c5step1, c5step2]

def c5plan : PlanningResponse :=
  { plan := "retry"
    steps := some [⟨5, "redo", "t", none, none⟩]
    isComplete := false }

theorem replanning_merge_frame_witness :
    mergeReplanned c5steps c5plan =
      c5steps.filter (·.completed) ++
        ((convertToExecutionSteps c5plan).enum.map fun p =>
          { p.2 with stepNumber := (c5steps.map (·.stepNumber)).foldl max 0 +
            (p.1 : Int) + 1 }) ∧
    c5step1 ∈ mergeReplanned c5steps c5plan :=
  ⟨(replanning_merge_frame c5steps c5plan).1,
   (replanning_merge_frame c5steps c5plan).2.1 c5step1 (by simp [c5steps]) rfl⟩


/-- A step fails the executability test exactly when it has unmet (or
nonexistent) dependencies. -/
theorem depsSatisfied_false_iff (steps : List ExecutionStep) (step : ExecutionStep) :
    depsSatisfied steps step = false ↔ (unsatisfiedDeps steps step).length > 0 := by
  rw [depsSatisfied, unsatisfiedDeps]
  cases step.dependsOn with
  | none => simp
  | some deps =>
    dsimp only
    by_cases he : deps.isEmpty
    · have hnil : deps = [] := by simpa [List.isEmpty_iff] using he
      subst hnil
      simp
    · have hlen : deps.length > 0 := by
        cases deps with
        | nil => simp at he
        | cons d ds => simp
      rw [if_neg (by simpa using he), if_pos hlen]
      constructor
      · intro hall
        rw [List.all_eq_false] at hall
        obtain ⟨d, hd, hnp⟩ := hall
        have hmem : d ∈ deps.filter fun depNum =>
            match steps.find? (fun s => s.stepNumber = depNum) with
            | some depStep => !depStep.completed
            | none => true := by
          refine List.mem_filter.mpr ⟨hd, ?_⟩
          cases hf : steps.find? (fun s => s.stepNumber = d) with
          | some ds =>
            rw [hf] at hnp
            simpa using hnp
          | none => simp
        have := List.length_pos.mpr (List.ne_nil_of_mem hmem)
        omega
      · intro hlen2
        have hex : ∃ d, d ∈ deps.filter fun depNum =>
            match steps.find? (fun s => s.stepNumber = depNum) with
            | some depStep => !depStep.completed
            | none => true := by
          rcases List.exists_mem_of_length_pos hlen2 with ⟨d, hd⟩
          exact ⟨d, hd⟩
        obtain ⟨d, hd⟩ := hex
        obtain ⟨hdd, hdp⟩ := List.mem_filter.mp hd
        rw [List.all_eq_false]
        refine ⟨d, hdd, ?_⟩
        cases hf : steps.find? (fun s => s.stepNumber = d) with
        | some ds =>
          rw [hf] at hdp
          simp only [Bool.not_eq_true'] at hdp
          simp [hdp]
        | none => simp

/-- The reduce of findNextExecutableStep picks a member of minimal
stepNumber (keeping the earlier one on ties). -/
theorem foldl_min_spec (rest : List (Nat × ExecutionStep)) :
    ∀ first : Nat × ExecutionStep,
      (rest.foldl (fun mn p => if p.2.stepNumber < mn.2.stepNumber then p else mn)
        first) ∈ first :: rest ∧
      ∀ q ∈ first :: rest,
        (rest.foldl (fun mn p => if p.2.stepNumber < mn.2.stepNumber then p else mn)
          first).2.stepNumber ≤ q.2.stepNumber := by
  induction rest with
  | nil =>
    intro first
    exact ⟨List.mem_cons_self _ _, by intro q hq; simp at hq; subst hq; exact le_refl _⟩
  | cons x xs ih =>
    intro first
    rw [List.foldl_cons]
    by_cases h : x.2.stepNumber < first.2.stepNumber
    · rw [if_pos h]
      obtain ⟨m1, m2⟩ := ih x
      refine ⟨?_, ?_⟩
      · rcases List.mem_cons.mp m1 with h1 | h1
        · rw [h1]; exact List.mem_cons_of_mem _ (List.mem_cons_self _ _)
        · exact List.mem_cons_of_mem _ (List.mem_cons_of_mem _ h1)
      · intro q hq
        rcases List.mem_cons.mp hq with h1 | h1
        · subst h1
          have := m2 x (List.mem_cons_self _ _)
          omega
        · exact m2 q h1
    · rw [if_neg h]
      obtain ⟨m1, m2⟩ := ih first
      refine ⟨?_, ?_⟩
      · rcases List.mem_cons.mp m1 with h1 | h1
        · rw [h1]; exact List.mem_cons_self _ _
        · exact List.mem_cons_of_mem _ (List.mem_cons_of_mem _ h1)
      · intro q hq
        rcases List.mem_cons.mp hq with h1 | h1
        · subst h1
          exact m2 q (List.mem_cons_self _ _)
        · rcases List.mem_cons.mp h1 with h2 | h2
          · subst h2
            have := m2 first (List.mem_cons_self _ _)
            omega
          · exact m2 q (List.mem_cons_of_mem _ h2)


/-- C4: a step with unmet (or nonexistent) dependencies is never executed:
executeStep rejects it up front with an error naming the unmet step numbers
and leaves the state untouched (for every environment, so no tool is ever
invoked).  findNextExecutableStep chooses, among incomplete steps whose
dependencies are all completed, the one with the lowest step number; when no
incomplete step is executable it still selects the first incomplete step —
whose execution then fails as above — and it returns none only when every
step is complete. -/
theorem dependency_gating_and_selection (steps : List ExecutionStep) :
    (∀ (env : OrchestratorEnv) (st : OrchestratorState) (idx : Nat)
        (step : ExecutionStep),
      st.steps = steps → steps.get? idx = some step →
      depsSatisfied steps step = false →
      executeStep env st idx =
        (.error (stepDepErrorMsg step (unsatisfiedDeps steps step)), st)) ∧
    (findNextExecutableStepIdx steps = none → ∀ s ∈ steps, s.completed = true) ∧
    (∀ idx, findNextExecutableStepIdx steps = some idx →
      ∃ step, steps.get? idx = some step ∧ step.completed = false ∧
        ((((steps.enum.filter fun p => !p.2.completed).filter
            fun p => depsSatisfied steps p.2) ≠ []) →
          (idx, step) ∈ ((steps.enum.filter fun p => !p.2.completed).filter
            fun p => depsSatisfied steps p.2) ∧
          ∀ q ∈ ((steps.enum.filter fun p => !p.2.completed).filter
            fun p => depsSatisfied steps p.2), step.stepNumber ≤ q.2.stepNumber) ∧
        ((((steps.enum.filter fun p => !p.2.completed).filter
            fun p => depsSatisfied steps p.2) = []) →
          (steps.enum.filter fun p => !p.2.completed).head? = some (idx, step) ∧
          depsSatisfied steps step = false)) := by
  refine ⟨?_, ?_, ?_⟩
  · intro env st idx step hst hget hdep
    have hlen : (unsatisfiedDeps steps step).length > 0 :=
      (depsSatisfied_false_iff steps step).mp hdep
    rw [executeStep, hst, hget]
    dsimp only
    rw [if_pos hlen]
  · intro hnone s hs
    rw [findNextExecutableStepIdx] at hnone
    dsimp only at hnone
    obtain ⟨i, hi⟩ := List.mem_iff_get?.mp hs
    have hmem : (i, s) ∈ steps.enum := List.mem_enum_iff_get?.mpr hi
    by_contra hnc
    have hpend : (i, s) ∈ steps.enum.filter fun p => !p.2.completed := by
      refine List.mem_filter.mpr ⟨hmem, ?_⟩
      rw [Bool.not_eq_true] at hnc
      simp [hnc]
    cases hp : steps.enum.filter fun p => !p.2.completed with
    | nil => rw [hp] at hpend; simp at hpend
    | cons fp r =>
      rw [hp] at hnone
      dsimp only at hnone
      cases he : (fp :: r).filter fun p => depsSatisfied steps p.2 with
      | nil => rw [he] at hnone; simp at hnone
      | cons e es => rw [he] at hnone; simp at hnone
  · intro idx hidx
    rw [findNextExecutableStepIdx] at hidx
    dsimp only at hidx
    cases hp : steps.enum.filter fun p => !p.2.completed with
    | nil =>
      rw [hp] at hidx
      exact Option.noConfusion hidx
    | cons fp r =>
      rw [hp] at hidx
      dsimp only at hidx
      cases he : (fp :: r).filter fun p => depsSatisfied steps p.2 with
      | nil =>
        rw [he] at hidx
        dsimp only at hidx
        have hidx2 : idx = fp.1 := by
          simpa using hidx.symm
        subst hidx2
        have hfpp : fp ∈ steps.enum.filter fun p => !p.2.completed := by
          rw [hp]; exact List.mem_cons_self _ _
        obtain ⟨hfpe, hfpc⟩ := List.mem_filter.mp hfpp
        refine ⟨fp.2, List.mem_enum_iff_get?.mp hfpe, by simpa using hfpc, ?_, ?_⟩
        · intro hne
          exact absurd rfl hne
        · intro _
          have hds : depsSatisfied steps fp.2 = false := by
            have := List.filter_eq_nil.mp he fp (List.mem_cons_self _ _)
            simpa using this
          exact ⟨rfl, hds⟩
      | cons e es =>
        rw [he] at hidx
        dsimp only at hidx
        obtain ⟨hm, hmin⟩ := foldl_min_spec es e
        set r0 := es.foldl
          (fun mn p => if p.2.stepNumber < mn.2.stepNumber then p else mn) e with hr0
        have hidx2 : idx = r0.1 := by
          simpa using hidx.symm
        subst hidx2
        have hr0exec : r0 ∈ (steps.enum.filter fun p => !p.2.completed).filter
            fun p => depsSatisfied steps p.2 := by
          rw [hp, he]
          exact hm
        have hr0pend : r0 ∈ steps.enum.filter fun p => !p.2.completed :=
          List.mem_of_mem_filter hr0exec
        obtain ⟨hr0e, hr0c⟩ := List.mem_filter.mp hr0pend
        refine ⟨r0.2, List.mem_enum_iff_get?.mp hr0e, by simpa using hr0c, ?_, ?_⟩
        · intro _
          refine ⟨hm, ?_⟩
          intro q hq
          exact hmin q hq
        · intro hnil
          exact absurd hnil (by simp)


def c4step1 : ExecutionStep :=
  { stepNumber := 1
    description := "blocked"
    toolCall := ⟨"t", none, none⟩
    completed := false
    dependsOn := some [7] }

def c4step2 : ExecutionStep :=
  { stepNumber := 2
    description := "free"
    toolCall := ⟨"t", none, none⟩
    completed := false }

def c4steps : List ExecutionStep := [c4step1, c4step2]

def c4env : OrchestratorEnv :=
  ⟨[], fun _ _ => .ok .null, fun _ => .error "no plan", fun _ => .error "no next"⟩

def c4st : OrchestratorState := { userQuery := "q", steps := c4steps }

theorem dependency_gating_and_selection_witness :
    executeStep c4env c4st 0 =
      (.error (stepDepErrorMsg c4step1 (unsatisfiedDeps c4steps c4step1)), c4st) ∧
    (∃ step, c4steps.get? 1 = some step ∧ step.completed = false ∧
      ((((c4steps.enum.filter fun p => !p.2.completed).filter
          fun p => depsSatisfied c4steps p.2) ≠ []) →
        (1, step) ∈ ((c4steps.enum.filter fun p => !p.2.completed).filter
          fun p => depsSatisfied c4steps p.2) ∧
        ∀ q ∈ ((c4steps.enum.filter fun p => !p.2.completed).filter
          fun p => depsSatisfied c4steps p.2), step.stepNumber ≤ q.2.stepNumber) ∧
      ((((c4steps.enum.filter fun p => !p.2.completed).filter
          fun p => depsSatisfied c4steps p.2) = []) →
        (c4steps.enum.filter fun p => !p.2.completed).head? = some (1, step) ∧
        depsSatisfied c4steps step = false)) :=
  ⟨(dependency_gating_and_selection c4steps).1 c4env c4st 0 c4step1 rfl rfl rfl,
   (dependency_gating_and_selection c4steps).2.2 1 rfl⟩


/-- C1 (amended): reaching the step-count ceiling mid-run does end the run
as completed with success = true; but reaching the plan-regeneration ceiling
does not — when a step fails with the regeneration count at the ceiling, the
run ends with success = false and status error (the completed-at-ceiling
branch after the loop is unreachable). -/
theorem ceiling_outcomes (env : OrchestratorEnv) (cfg : OrchestratorConfig)
    (uq : String) (sp : Option String) (fuel : Nat) (st : OrchestratorState)
    (plan : PlanningResponse) (rc : Nat) (idx : Nat)
    (hfind : findNextExecutableStepIdx st.steps = some idx)
    (hrc : rc ≤ maxPlanRegenerations) :
    (st.steps.length ≥ cfg.maxSteps →
      execLoop env cfg uq sp (fuel + 1) st plan rc =
        some { success := true
               finalResponse := "Execution completed (reached maximum steps limit)."
               steps := st.steps.filter (·.completed)
               state := { st with status := .completed } }) ∧
    (∀ msg st', rc = maxPlanRegenerations → st.steps.length < cfg.maxSteps →
      executeStep env { st with currentStepIndex :=
        (match st.steps.get? idx with | some s => s.stepNumber | none => 0) - 1 }
        idx = (.error msg, st') →
      ∃ r, execLoop env cfg uq sp (fuel + 1) st plan rc = some r ∧
        r.success = false ∧ r.state.status = .error ∧ r.error = some msg) := by
  constructor
  · intro hge
    rw [execLoop]
    rw [if_neg (by omega)]
    rw [hfind]
    dsimp only
    rw [if_pos hge]
  · intro msg st' hrc3 hlt hexec
    rw [execLoop]
    rw [if_neg (by omega)]
    rw [hfind]
    dsimp only
    rw [if_neg (by omega)]
    rw [hexec]
    dsimp only
    rw [if_pos (by omega)]
    exact ⟨_, rfl, rfl, rfl, rfl⟩

def c1env : OrchestratorEnv :=
  { tools := []
    callTool := fun _ _ => .error "tool blew up"
    planOracle := fun _ => .ok ⟨true,
      some { plan := "p", steps := some [⟨1, "do", "t", none, none⟩],
             isComplete := false }, none⟩
    nextStepOracle := fun _ => .error "unused" }

/-- C1 counterexample: a concrete run that hits the plan-regeneration
ceiling mid-run and ends with success = false and status error — refuting
"the run ends with status completed and success = true, never error". -/
theorem ceiling_regeneration_error_counterexample :
    ∃ r, execute c1env ⟨10, 10⟩ "q" none 30 = some r ∧
      r.success = false ∧ r.state.status = .error ∧
      r.finalResponse = "Execution failed after 3 plan regenerations: " ++
        "Step 4 execution failed: tool blew up" :=
  ⟨_, rfl, rfl, rfl, rfl⟩

def c1step : ExecutionStep :=
  { stepNumber := 1
    description := "only"
    toolCall := ⟨"t", none, none⟩
    completed := false }

def c1st : OrchestratorState := { userQuery := "q", steps := [c1step] }

theorem ceiling_outcomes_witness :
    execLoop c1env ⟨1, 10⟩ "q" none 6 c1st
      ⟨"p", none, false⟩ 0 =
      some { success := true
             finalResponse := "Execution completed (reached maximum steps limit)."
             steps := c1st.steps.filter (·.completed)
             state := { c1st with status := .completed } } :=
  (ceiling_outcomes c1env ⟨1, 10⟩ "q" none 5 c1st ⟨"p", none, false⟩ 0 0
    rfl (by decide)).1 (by decide)


end Orchestrator

end AgentBuilder
